import Mathlib

set_option allowUnsafeReducibility true
attribute [local semireducible] Rat.mul Rat.div Rat.add Rat.sub Rat.neg Rat.inv

/-!
# Verification of the maamar search pipeline

A shallow embedding, in Lean 4, of the matching/ranking core of
`search_maamar_with_openai.py` (repository `InprisAI/chabad_data`), together
with theorems settling the frozen claims about its specification.

Conventions of the embedding:

* Python strings are modelled as `String` / `List Char`; all text functions
  work on the underlying character lists.
* Python `float` arithmetic is modelled exactly over `ℚ`; `int(x)` is
  truncation toward zero (`pyIntQ`).  The inputs evaluated in this file stay
  far from binary-float rounding boundaries, where the two agree.
* Python's stable `list.sort(key=k, reverse=True)` is modelled by a stable
  insertion sort on the key (`pySortDescBy` / `pySortAscBy`); any two stable
  sorts by the same key coincide, so this is exact.
* Python `dict` (insertion ordered) is modelled by association lists.
* `None`-able string fields use `""` for `None` (both are falsy in every
  branch of the source that tests them).
* Functions that consume their input in non-structural steps take an explicit
  fuel argument initialised to the input length; the fuel never runs out
  (each step consumes at least one character), it only makes the recursion
  structural so that the kernel can evaluate closed instances.
-/

/-! ## Python string primitives -/

/-- The whitespace characters recognised by Python's `str.split()` /
`str.strip()` on the texts in scope (ASCII whitespace). -/
def isPySpace (c : Char) : Bool :=
  c = ' ' || c = '\t' || c = '\n' || c = '\r' || c = Char.ofNat 11 || c = Char.ofNat 12

/-- `str.strip()` : drop leading and trailing whitespace. -/
def pyStripList (l : List Char) : List Char :=
  ((l.dropWhile isPySpace).reverse.dropWhile isPySpace).reverse

/-- `str.strip()` on `String`. -/
def pyStrip (s : String) : String :=
  String.mk (pyStripList s.data)

/-- Accumulator-based worker for Python `str.split()` (split on whitespace
runs, dropping empty fields). `acc` holds the reversed current word. -/
def pySplitWsAux : List Char → List Char → List (List Char)
  | [], acc => if acc.isEmpty then [] else [acc.reverse]
  | c :: rest, acc =>
    if isPySpace c then
      if acc.isEmpty then pySplitWsAux rest [] else acc.reverse :: pySplitWsAux rest []
    else
      pySplitWsAux rest (c :: acc)

/-- Python `str.split()` (no separator argument). -/
def pySplitWs (l : List Char) : List (List Char) :=
  pySplitWsAux l []

/-- `' '.join(words)` on character lists. -/
def joinSpace : List (List Char) → List Char
  | [] => []
  | [w] => w
  | w :: ws => w ++ ' ' :: joinSpace ws

/-- `' '.join(text.split())` : collapse whitespace runs to single spaces and
trim. -/
def collapseWs (l : List Char) : List Char :=
  joinSpace (pySplitWs l)

/-- Python `str.split(sep)` for a one-character separator: keeps empty
fields. -/
def pySplitChar (sep : Char) : List Char → List (List Char)
  | [] => [[]]
  | c :: rest =>
    let r := pySplitChar sep rest
    if c = sep then [] :: r
    else
      match r with
      | [] => [[c]]
      | w :: ws => (c :: w) :: ws

/-- Does `pat` occur at the head of `l`? (`List.isPrefixOf` with `==`). -/
def startsWithList (pat l : List Char) : Bool :=
  pat.isPrefixOf l

/-- Python `pat in s` : substring containment. The empty pattern is contained
in every string. -/
def containsSub (pat : List Char) : List Char → Bool
  | [] => pat.isEmpty
  | c :: rest => startsWithList pat (c :: rest) || containsSub pat rest

/-- Fuel-based worker for `pySplitOnSub`. -/
def pySplitOnSubAux (sep : List Char) : ℕ → List Char → List (List Char)
  | 0, _ => [[]]
  | _ + 1, [] => [[]]
  | fuel + 1, c :: rest =>
    if startsWithList sep (c :: rest) ∧ ¬ sep.isEmpty then
      [] :: pySplitOnSubAux sep fuel ((c :: rest).drop sep.length)
    else
      match pySplitOnSubAux sep fuel rest with
      | [] => [[c]]
      | w :: ws => (c :: w) :: ws

/-- Python `str.split(sep)` for a multi-character separator (`sep ≠ ""` at
every call site), keeping empty fields. -/
def pySplitOnSub (sep l : List Char) : List (List Char) :=
  pySplitOnSubAux sep l.length l

/-- Fuel-based worker for `pyReplaceAll`. -/
def pyReplaceAllAux (pat rep : List Char) : ℕ → List Char → List Char
  | 0, l => l
  | _ + 1, [] => []
  | fuel + 1, c :: rest =>
    if pat.isEmpty then c :: rest
    else if startsWithList pat (c :: rest) then
      rep ++ pyReplaceAllAux pat rep fuel ((c :: rest).drop pat.length)
    else
      c :: pyReplaceAllAux pat rep fuel rest

/-- Python `str.replace(pat, rep)` (all non-overlapping occurrences, left to
right). An empty `pat` returns the input unchanged; every call site in the
source guards against empty patterns. -/
def pyReplaceAll (pat rep l : List Char) : List Char :=
  pyReplaceAllAux pat rep l.length l

/-- Fuel-based worker for `countSubOcc`. -/
def countSubOccAux (pat : List Char) : ℕ → List Char → ℕ
  | 0, _ => if pat.isEmpty then 1 else 0
  | _ + 1, [] => if pat.isEmpty then 1 else 0
  | fuel + 1, c :: rest =>
    if pat.isEmpty then 1 + countSubOccAux pat fuel rest
    else if startsWithList pat (c :: rest) then
      1 + countSubOccAux pat fuel ((c :: rest).drop pat.length)
    else
      countSubOccAux pat fuel rest

/-- Count of non-overlapping occurrences of `pat` in `l`, scanning left to
right (`len(re.findall(re.escape(pat), l))`). For an empty pattern Python
finds `len(l) + 1` matches. -/
def countSubOcc (pat l : List Char) : ℕ :=
  countSubOccAux pat l.length l

/-- Count of occurrences of `pat` in `l` that are delimited by whitespace or
the string ends (`re.findall(r"(?<!\S)pat(?!\S)", l)` for a whitespace-free
nonempty `pat`).  `prevOk` records whether the previous character permits a
match start. -/
def countBoundedOccAux (pat : List Char) : List Char → Bool → ℕ
  | [], _ => 0
  | c :: rest, prevOk =>
    let hit := prevOk && startsWithList pat (c :: rest) &&
      (match (c :: rest).drop pat.length with
       | [] => true
       | d :: _ => isPySpace d)
    (if hit then 1 else 0) + countBoundedOccAux pat rest (isPySpace c)

/-- Word-boundary occurrence count (`(?<!\S)...(?!\S)`), for nonempty
whitespace-free patterns as produced by `_tokenize_query_keywords`. -/
def countBoundedOcc (pat l : List Char) : ℕ :=
  countBoundedOccAux pat l true

/-- Python `int(q)` : truncation toward zero on exact rationals. -/
def pyIntQ (q : ℚ) : ℤ :=
  q.num.tdiv q.den

/-- Python list slicing `l[:n]` including negative `n`
(`l[:-k]` drops the last `k` elements). -/
def pySliceTo (n : ℤ) (l : List α) : List α :=
  if 0 ≤ n then l.take n.toNat else l.take (l.length - (-n).toNat)

/-! ## Stable sorts (Python `list.sort(key=...)`) -/

/-- Python `l.sort(key=k)` (ascending, stable). -/
def pySortAscBy [LinearOrder κ] (k : α → κ) (l : List α) : List α :=
  List.insertionSort (fun a b => k a ≤ k b) l

/-- Python `l.sort(key=k, reverse=True)` (descending, stable). -/
def pySortDescBy [LinearOrder κ] (k : α → κ) (l : List α) : List α :=
  List.insertionSort (fun a b => k b ≤ k a) l

theorem pySortDescBy_perm [LinearOrder κ] (k : α → κ) (l : List α) :
    (pySortDescBy k l).Perm l :=
  List.perm_insertionSort _ l

theorem pySortAscBy_perm [LinearOrder κ] (k : α → κ) (l : List α) :
    (pySortAscBy k l).Perm l :=
  List.perm_insertionSort _ l

theorem pySortDescBy_sorted [LinearOrder κ] (k : α → κ) (l : List α) :
    (pySortDescBy k l).Sorted (fun a b => k b ≤ k a) := by
  haveI : IsTotal α (fun a b => k b ≤ k a) := ⟨fun a b => le_total (k b) (k a)⟩
  haveI : IsTrans α (fun a b => k b ≤ k a) := ⟨fun _ _ _ h1 h2 => le_trans h2 h1⟩
  exact List.sorted_insertionSort _ l

/-! ## Facts about `pyIntQ` -/

theorem pyIntQ_eq_floor {q : ℚ} (h : 0 ≤ q) : pyIntQ q = ⌊q⌋ := by
  have hnum : 0 ≤ q.num := Rat.num_nonneg.mpr h
  have hden : (0 : ℤ) ≤ (q.den : ℤ) := Int.ofNat_nonneg _
  rw [pyIntQ, Rat.floor_def, Int.tdiv_eq_ediv hnum hden]

theorem pyIntQ_natCast_div_mul (a b c : ℕ) :
    pyIntQ ((a : ℚ) / (b : ℚ) * (c : ℚ)) = ((a * c) / b : ℕ) := by
  have h0 : (0 : ℚ) ≤ (a : ℚ) / (b : ℚ) * (c : ℚ) := by positivity
  rw [pyIntQ_eq_floor h0]
  have h1 : (a : ℚ) / (b : ℚ) * (c : ℚ) = ((a * c : ℕ) : ℚ) / ((b : ℕ) : ℚ) := by
    push_cast
    ring
  rw [h1, Rat.floor_natCast_div_natCast]
  rfl

theorem pyIntQ_nonneg {q : ℚ} (h : 0 ≤ q) : 0 ≤ pyIntQ q := by
  rw [pyIntQ_eq_floor h]
  exact Int.floor_nonneg.mpr h

theorem pyIntQ_le_of_le {q : ℚ} {n : ℤ} (h0 : 0 ≤ q) (h : q ≤ (n : ℚ)) :
    pyIntQ q ≤ n := by
  rw [pyIntQ_eq_floor h0]
  exact le_of_le_of_eq (Int.floor_le_floor h) (Int.floor_intCast n)

/-! ## Character classes of the normalizer -/

/-- Hebrew diacritical marks, U+0591 – U+05C7 (`re.sub(r"[֑-ׇ]", "", ...)`). -/
def isHebDiacritic (c : Char) : Bool :=
  0x591 ≤ c.toNat && c.toNat ≤ 0x5C7

/-- The seven-plus-one quote glyphs removed by `normalize_text`
(gershayim, ASCII double quote, geresh, apostrophe, backtick, prime, double
prime, triple prime). -/
def quoteGlyphs : List Char :=
  ['״', '"', '׳', Char.ofNat 39, Char.ofNat 96, '′', '″', '‴']

/-- Membership in the quote-glyph class. -/
def isQuoteGlyph (c : Char) : Bool :=
  quoteGlyphs.contains c

/-- The punctuation class `[,.\-:;!?()[\]{}]` replaced by spaces. -/
def isPunct (c : Char) : Bool :=
  [',', '.', '-', ':', ';', '!', '?', '(', ')', '[', ']',
    Char.ofNat 0x7b, Char.ofNat 0x7d].contains c

/-- Hebrew letters א–ת (the class `[א-ת]`). -/
def isHebLetter (c : Char) : Bool :=
  'א' ≤ c && c ≤ 'ת'

/-- One left-to-right pass of `re.sub(r"([א-ת])X([א-ת])", r"\1\2", text)`
for the vowel letter `X`: elide `X` when it sits between two Hebrew letters;
matches are non-overlapping and scanning resumes after a match. -/
def elideBetween (x : Char) : List Char → List Char
  | a :: b :: c :: rest =>
    if isHebLetter a ∧ b = x ∧ isHebLetter c then
      a :: c :: elideBetween x rest
    else
      a :: elideBetween x (b :: c :: rest)
  | l => l

/-- `normalize_text(text, level)` : remove diacritics, drop quote glyphs, at
level ≥ 1/2/3 elide internal vav/yod/heh, replace punctuation with spaces,
collapse whitespace, strip. -/
def normalize_text (text : String) (level : ℕ) : String :=
  if text = "" then ""
  else
    let l1 := text.data.filter (fun c => ¬ isHebDiacritic c)
    let l2 := l1.filter (fun c => ¬ isQuoteGlyph c)
    let l3 := if level ≥ 1 then elideBetween 'ו' l2 else l2
    let l4 := if level ≥ 2 then elideBetween 'י' l3 else l3
    let l5 := if level ≥ 3 then elideBetween 'ה' l4 else l4
    let l6 := l5.map (fun c => if isPunct c then ' ' else c)
    String.mk (pyStripList (collapseWs l6))

/-- The four Hebrew/ASCII quote characters whose presence in an abbreviation
triggers variant generation in `expand_abbreviations`. -/
def abbrTriggerQuotes : List Char :=
  ['"', Char.ofNat 39, '״', '׳']

/-- The eight quote variants tried for each abbreviation. -/
def abbrVariantQuotes : List Char :=
  ['"', Char.ofNat 39, '״', '׳', Char.ofNat 96, '′', '″', '‴']

/-- Replace each of the four trigger quote glyphs in `abbr` by `q`
(the chained `.replace` calls building `abbr_variant`). -/
def abbrWithQuote (q : Char) (abbr : List Char) : List Char :=
  abbr.map (fun c => if abbrTriggerQuotes.contains c then q else c)

/-- Try the eight quote variants of one abbreviation in order, replacing the
first variant that occurs in `result` (the `for q in quote_chars: ... break`
loop). -/
def expandOneAbbrVariants (abbr meaning : List Char) :
    List Char → List Char → List Char
  | result, [] => result
  | result, q :: qs =>
    let variant := abbrWithQuote q abbr
    if containsSub variant result then
      pyReplaceAll variant meaning result
    else
      expandOneAbbrVariants abbr meaning result qs

/-- Process one `(abbreviation, meaning)` table entry against `result`
(one iteration of the loop body of `expand_abbreviations`). -/
def expandOneAbbr (result : List Char) (entry : String × String) : List Char :=
  let abbr := entry.1.data
  let meaning := entry.2.data
  if abbr.isEmpty ∨ meaning.isEmpty then result
  else if containsSub abbr result then pyReplaceAll abbr meaning result
  else if abbrTriggerQuotes.any (fun q => abbr.contains q) then
    expandOneAbbrVariants abbr meaning result abbrVariantQuotes
  else result

/-- `expand_abbreviations(text)` over the abbreviation table `abbrs`
(the `_ABBREVIATIONS` mapping loaded from the corpus metadata, in insertion
order). -/
def expand_abbreviations (abbrs : List (String × String)) (text : String) : String :=
  if text = "" ∨ abbrs.isEmpty then text
  else String.mk (abbrs.foldl expandOneAbbr text.data)

/-! ## Corpus data model -/

/-- One corpus record (a loaded maamar). `year = ""` models a missing/`None`
year; `embedding = none` models a record without a vector. -/
structure Maamar where
  name : String
  year : String
  filename : String
  text : String
  keywords_all : List String
  keywords_all_normalized : List String
  embedding : Option (List ℚ)
deriving DecidableEq, Repr

/-- A per-query result/candidate dictionary as built by the search
functions.  Scores are integers (they may leave `[0,100]` only through the
semantic blend, hence `ℤ`). -/
structure Candidate where
  key : String
  name : String
  year : String
  filename : String
  text : String
  keywords_all : List String
  keywords_all_normalized : List String
  embedding : Option (List ℚ)
  score : ℤ
  fuzzy_score : ℤ
  keyword_score : ℤ
  semantic_score : ℤ
  words_found : ℕ
  total_words : ℕ
  matched_keywords : List String
  matched_keyword_counts : List (String × ℕ)
deriving DecidableEq, Repr

/-- Truthiness of the `embedding` field (`candidate.get('embedding')`):
`None` and the empty list are falsy. -/
def hasEmbedding (c : Candidate) : Bool :=
  match c.embedding with
  | none => false
  | some v => ¬ v.isEmpty

/-! ## Query pre-processing helpers -/

/-- The literal word `מאמר`. -/
def maamarWord : List Char := "מאמר".data

/-- Match `\S*מאמר\s*` at the head of `l`: the greedy `\S*` takes the longest
all-non-space prefix after which the literal follows; on success return the
total number of characters consumed. -/
def matchMaamarAt (l : List Char) : Option ℕ :=
  let m := (l.takeWhile (fun c => ¬ isPySpace c)).length
  match (List.range (m + 1)).reverse.find? (fun j => startsWithList maamarWord (l.drop j)) with
  | none => none
  | some j => some (j + 4 + ((l.drop (j + 4)).takeWhile isPySpace).length)

/-- Fuel-based worker for `re.sub(r"\S*מאמר\s*", "", text)`. -/
def subMaamarAux : ℕ → List Char → List Char
  | 0, l => l
  | _ + 1, [] => []
  | fuel + 1, c :: rest =>
    match matchMaamarAt (c :: rest) with
    | some k => subMaamarAux fuel ((c :: rest).drop k)
    | none => c :: subMaamarAux fuel rest

/-- `re.sub(r"\S*מאמר\s*", "", text)`. -/
def subMaamar (l : List Char) : List Char :=
  subMaamarAux l.length l

/-- `clean_maamar_name(text)` : strip, drop every word ending in `מאמר`
(with trailing whitespace), drop ASCII digits, collapse whitespace. -/
def clean_maamar_name (text : String) : String :=
  if text = "" then text
  else
    let t1 := subMaamar (pyStripList text.data)
    let t2 := t1.filter (fun c => ¬ c.isDigit)
    String.mk (collapseWs t2)

/-- The quote characters accepted inside a Hebrew year token
(`[״"׳']` in `extract_year_from_text`). -/
def yearQuotes : List Char := ['״', '"', '׳', Char.ofNat 39]

/-- The optional year-token tail `(?:[״"׳'][א-ת]|[א-ת])?` : its matched
length at the head of `l` (alternatives tried left to right, greedily). -/
def yearTailLen (l : List Char) : ℕ :=
  match l with
  | q :: c :: _ => if yearQuotes.contains q ∧ isHebLetter c then 2
      else if isHebLetter q then 1 else 0
  | [c] => if isHebLetter c then 1 else 0
  | [] => 0

/-- Match `תש[א-ת]{1,2}(?:[״"׳'][א-ת]|[א-ת])?` at the head of `l`; on
success return the matched length (the quantifiers are greedy and nothing
follows them, so matching is deterministic). -/
def matchYearAt (l : List Char) : Option ℕ :=
  match l with
  | t :: s :: rest =>
    if t = 'ת' ∧ s = 'ש' then
      match rest with
      | a :: b :: rest2 =>
        if isHebLetter a ∧ isHebLetter b then some (4 + yearTailLen rest2)
        else if isHebLetter a then some (3 + yearTailLen (b :: rest2))
        else none
      | [a] => if isHebLetter a then some 3 else none
      | [] => none
    else none
  | _ => none

/-- `re.search(year_pattern, text)` : the leftmost year token, if any. -/
def searchYear : List Char → Option (List Char)
  | [] => none
  | c :: rest =>
    match matchYearAt (c :: rest) with
    | some k => some ((c :: rest).take k)
    | none => searchYear rest

/-- Python `str.replace(pat, rep, 1)` : replace the first occurrence only
(`pat ≠ ""` at every call site). -/
def pyReplaceFirst (pat rep : List Char) : List Char → List Char
  | [] => []
  | c :: rest =>
    if ¬ pat.isEmpty ∧ startsWithList pat (c :: rest) then
      rep ++ (c :: rest).drop pat.length
    else
      c :: pyReplaceFirst pat rep rest

/-- `extract_year_from_text(text)` : find a Hebrew year token, remove its
first occurrence, collapse whitespace; returns `(cleaned_text, year)` with
`none` when no year is present. -/
def extract_year_from_text (text : String) : String × Option String :=
  if text = "" then (text, none)
  else
    match searchYear text.data with
    | some y =>
      (String.mk (collapseWs (pyReplaceFirst y [] text.data)), some (String.mk y))
    | none => (text, none)

/-- The year normalization applied by `search_maamar` / `search_by_year`:
drop a leading `ה` (with an optional following geresh/apostrophe), then drop
all characters in `[״"'׳/]`. -/
def norm_year (y : String) : String :=
  let l1 :=
    match y.data with
    | h :: q :: rest =>
      if h = 'ה' then (if q = Char.ofNat 39 ∨ q = '׳' then rest else q :: rest)
      else h :: q :: rest
    | [h] => if h = 'ה' then [] else [h]
    | [] => []
  String.mk (l1.filter (fun c =>
    ¬ (c = '״' ∨ c = '"' ∨ c = Char.ofNat 39 ∨ c = '׳' ∨ c = '/')))

/-- Match `\|?ד[״"׳'`′″‴]ה\|?\s*` at the head of `l`; on success return the
matched length. -/
def matchDaletHehAt (l : List Char) : Option ℕ :=
  let tryCore : List Char → Option ℕ := fun m =>
    match m with
    | d :: q :: h :: rest =>
      if d = 'ד' ∧ isQuoteGlyph q ∧ h = 'ה' then
        match rest with
        | p :: r2 =>
          if p = '|' then some (4 + (r2.takeWhile isPySpace).length)
          else some (3 + (rest.takeWhile isPySpace).length)
        | [] => some 3
      else none
    | _ => none
  match l with
  | p :: rest =>
    if p = '|' then
      match tryCore rest with
      | some k => some (k + 1)
      | none => tryCore (p :: rest)
    else tryCore (p :: rest)
  | [] => none

/-- Fuel-based worker for the `ד"ה` removal
(`re.sub(r"\|?ד[״"׳'`′″‴]ה\|?\s*", "", text)`). -/
def subDaletHehAux : ℕ → List Char → List Char
  | 0, l => l
  | _ + 1, [] => []
  | fuel + 1, c :: rest =>
    match matchDaletHehAt (c :: rest) with
    | some k => subDaletHehAux fuel ((c :: rest).drop k)
    | none => c :: subDaletHehAux fuel rest

/-- `ד"ה` removal plus `strip` (shared by `extract_maamar_name_only` and
`mara_makom_word_match_search`). -/
def subDaletHeh (s : String) : String :=
  pyStrip (String.mk (subDaletHehAux s.data.length s.data))

/-- The word-collection loop of `extract_maamar_name_only`: keep words until
one containing `״`/`׳` is met; a year word (starting `תש`) is skipped, any
other quoted word stops the scan. -/
def takeMaamarNameWords : List (List Char) → List (List Char)
  | [] => []
  | w :: ws =>
    if w.contains '״' ∨ w.contains '׳' then
      if startsWithList "תש".data w then takeMaamarNameWords ws else []
    else
      w :: takeMaamarNameWords ws

/-- `extract_maamar_name_only(text)` : remove `ד"ה`, then keep the words
before the first non-year quoted word. -/
def extract_maamar_name_only (text : String) : String :=
  if text = "" then text
  else
    let words := pySplitWs (subDaletHeh text).data
    pyStrip (String.mk (joinSpace (takeMaamarNameWords words)))

/-! ## Exact title search (`exact_search_name`) -/

/-- Python `\w` (word character) restricted to the character sets in play:
ASCII alphanumerics, Hebrew letters, underscore. -/
def isWordCh (c : Char) : Bool :=
  c.isAlphanum || isHebLetter c || c = '_'

/-- Is there a `\b` boundary between two (optional) adjacent characters? -/
def wordBoundary (a b : Option Char) : Bool :=
  (match a with | none => false | some x => isWordCh x) !=
  (match b with | none => false | some x => isWordCh x)

/-- Worker for `existsWordBounded` carrying the previous character. -/
def existsWordBoundedAux (q : List Char) : Option Char → List Char → Bool
  | _, [] => false
  | prev, c :: rest =>
    (startsWithList q (c :: rest) &&
      wordBoundary prev (some c) &&
      wordBoundary q.getLast? ((c :: rest).drop q.length).head?) ||
    existsWordBoundedAux q (some c) rest

/-- `re.search(r"\b" + re.escape(q) + r"\b", l)` for a nonempty literal `q` :
does `q` occur in `l` delimited by word boundaries? -/
def existsWordBounded (q l : List Char) : Bool :=
  existsWordBoundedAux q none l

/-- Build the result dictionary of `exact_search_name` for one record.
Fields absent from the Python dict (`words_found`, `keywords_all_normalized`
…) are defaulted. -/
def exactResultOf (key : String) (m : Maamar) : Candidate :=
  { key := key, name := m.name, year := m.year, filename := m.filename,
    text := m.text, keywords_all := m.keywords_all,
    keywords_all_normalized := [],
    embedding := m.embedding,
    score := 100, fuzzy_score := 100, keyword_score := 0, semantic_score := 0,
    words_found := 0, total_words := 0,
    matched_keywords := [], matched_keyword_counts := [] }

/-- `exact_search_name(maamar_name, maamarim, top_n)` : whole-word-bounded
substring match of the level-0-normalized query inside each record's
level-0-normalized name; every match scores 100; ties broken by shorter
name; first `top_n` returned. -/
def exact_search_name (maamar_name : String) (maamarim : List (String × Maamar))
    (top_n : ℕ) : List Candidate :=
  let query_normalized := normalize_text maamar_name 0
  if pyStrip query_normalized = "" then []
  else
    let results := maamarim.filterMap (fun km =>
      if km.2.name = "" then none
      else
        let name_normalized := normalize_text km.2.name 0
        if existsWordBounded query_normalized.data name_normalized.data then
          some (exactResultOf km.1 km.2)
        else none)
    (pySortAscBy (fun c => c.name.data.length) results).take top_n

/-! ## Positional fuzzy title search (`fuzzy_search_name`) -/

/-- The three-round per-word matcher of `fuzzy_search_name`: try an exact hit
at level 0 (penalty 0); failing that, at level 1 — only attempted when the
level-1 form differs — (penalty 5); failing that, at level 2 — only when the
level-2 form differs from the level-1 form — (penalty **5**, despite the
source comment announcing a cumulative 10). Returns the matched name-word
index and the penalty. -/
def fuzzyWordMatch (q0 q1 q2 : String) (n0 n1 n2 : List String) :
    Option (ℕ × ℕ) :=
  match n0.findIdx? (fun w => w = q0) with
  | some j => some (j, 0)
  | none =>
    let round3 : Option (ℕ × ℕ) :=
      if q2 ≠ q1 then
        match n2.findIdx? (fun w => w = q2) with
        | some j => some (j, 5)
        | none => none
      else none
    if q1 ≠ q0 then
      match n1.findIdx? (fun w => w = q1) with
      | some j => some (j, 5)
      | none => round3
    else round3

/-- Accumulated `(words_found, words_in_order, total_penalty)` over the query
word positions. -/
def fuzzyScanStats (qw0 qw1 qw2 : List String) (n0 n1 n2 : List String) :
    ℕ × ℕ × ℕ :=
  (List.range qw0.length).foldl
    (fun acc i =>
      let q0 := qw0.getD i ""
      let q1 := qw1.getD i q0
      let q2 := qw2.getD i q0
      match fuzzyWordMatch q0 q1 q2 n0 n1 n2 with
      | some (j, pen) =>
        (acc.1 + 1, acc.2.1 + (if i = j then 1 else 0), acc.2.2 + pen)
      | none => acc)
    (0, 0, 0)

/-- `fuzzy_search_name(maamar_name, maamarim, top_n)` : positional word
alignment over normalization levels 0/1/2 with order and first-word bonuses
and normalization penalties, clamped to `[0, 100]`. -/
def fuzzy_search_name (abbrs : List (String × String)) (maamar_name : String)
    (maamarim : List (String × Maamar)) (top_n : ℕ) : List Candidate :=
  let expanded := expand_abbreviations abbrs maamar_name
  let query_level0 := normalize_text expanded 0
  let query_level1 := normalize_text expanded 1
  let query_level2 := normalize_text expanded 2
  let query_words := (pySplitWs query_level0.data).map String.mk
  if query_words.isEmpty then []
  else
    let qw1 := (pySplitWs query_level1.data).map String.mk
    let qw2 := (pySplitWs query_level2.data).map String.mk
    let results := maamarim.filterMap (fun km =>
      if km.2.name = "" then none
      else
        let name_expanded := expand_abbreviations abbrs km.2.name
        let n0 := (pySplitWs (normalize_text name_expanded 0).data).map String.mk
        let n1 := (pySplitWs (normalize_text name_expanded 1).data).map String.mk
        let n2 := (pySplitWs (normalize_text name_expanded 2).data).map String.mk
        if n0.isEmpty then none
        else
          let stats := fuzzyScanStats query_words qw1 qw2 n0 n1 n2
          if stats.1 = 0 then none
          else
            let base : ℤ := pyIntQ ((stats.1 : ℚ) / (query_words.length : ℚ) * 100)
            let orderBonus : ℤ := pyIntQ ((stats.2.1 : ℚ) / (query_words.length : ℚ) * 10)
            let firstBonus : ℤ :=
              if query_words.getD 0 "" = n0.getD 0 "" ∧ ¬ n0.isEmpty then 10 else 0
            let rawScore := base + orderBonus + firstBonus - (stats.2.2 : ℤ)
            let score := max 0 (min 100 rawScore)
            if score > 0 then
              some { key := km.1, name := km.2.name, filename := km.2.filename,
                     text := km.2.text, year := km.2.year,
                     keywords_all := km.2.keywords_all,
                     keywords_all_normalized := [],
                     embedding := km.2.embedding,
                     score := score, fuzzy_score := score,
                     keyword_score := 0, semantic_score := 0,
                     words_found := stats.1, total_words := query_words.length,
                     matched_keywords := [], matched_keyword_counts := [] }
            else none)
    (pySortDescBy (fun c => c.score) results).take top_n

/-! ## Mareh-makom word-set search (`mara_makom_word_match_search`) -/

/-- The normalized query word list of `mara_makom_word_match_search`:
remove `ד"ה`, expand abbreviations, normalize at level 3, split. -/
def maraQueryWords (abbrs : List (String × String)) (maamar_name : String) :
    List String :=
  let stripped := subDaletHeh maamar_name
  let expanded := expand_abbreviations abbrs stripped
  (((pySplitWs (normalize_text expanded 3).data).map String.mk).filter (fun w => w ≠ ""))

/-- The level-3-normalized word set of a record's (abbreviation-expanded)
name, as `mara_makom_word_match_search` computes it. -/
def maraNameWords (abbrs : List (String × String)) (m : Maamar) : List String :=
  (pySplitWs (normalize_text (expand_abbreviations abbrs m.name) 3).data).map String.mk

/-- `words_found` : how many of the query words occur in the record's
normalized name word set (duplicated query words counted separately,
order-independent). -/
def maraOverlap (abbrs : List (String × String)) (qws : List String)
    (m : Maamar) : ℕ :=
  qws.countP (fun w => (maraNameWords abbrs m).contains w)

/-- The candidate row that `mara_makom_word_match_search` builds for one
record (before ranking), given the query word list `qws`; `none` when the
record has no name or shares no word with the query. -/
def maraCandidateOf (abbrs : List (String × String)) (qws : List String)
    (key : String) (m : Maamar) : Option Candidate :=
  if m.name = "" then none
  else
    let words_found := maraOverlap abbrs qws m
    if words_found = 0 then none
    else
      let total_words := qws.length
      let score : ℤ :=
        if total_words ≠ 0 then pyIntQ ((words_found : ℚ) / (total_words : ℚ) * 100)
        else 0
      let year_value :=
        if m.year ≠ "" then m.year
        else match searchYear m.name.data with
             | some y => String.mk y
             | none => ""
      some { key := key, name := m.name, filename := m.filename, text := m.text,
             year := year_value, keywords_all := m.keywords_all,
             keywords_all_normalized := [],
             embedding := m.embedding,
             score := score, fuzzy_score := score,
             keyword_score := 0, semantic_score := 0,
             words_found := words_found, total_words := total_words,
             matched_keywords := [], matched_keyword_counts := [] }

/-- All mareh-makom candidates, in corpus order (the loop of
`mara_makom_word_match_search` before sorting). -/
def mara_makom_candidates (abbrs : List (String × String)) (qws : List String)
    (maamarim : List (String × Maamar)) : List Candidate :=
  maamarim.filterMap (fun km => maraCandidateOf abbrs qws km.1 km.2)

/-- The mareh-makom ranking key: `(words_found, score, -len(name))`,
compared lexicographically, sorted descending. -/
def maraSortKey (c : Candidate) : ℕ ×ₗ ℤ ×ₗ ℤ :=
  toLex (c.words_found, toLex (c.score, -(c.name.data.length : ℤ)))

/-- The full ranked (untruncated) mareh-makom candidate list. -/
def mara_makom_ranked (abbrs : List (String × String)) (qws : List String)
    (maamarim : List (String × Maamar)) : List Candidate :=
  pySortDescBy maraSortKey (mara_makom_candidates abbrs qws maamarim)

/-- `mara_makom_word_match_search(maamar_name, maamarim, top_n)` :
exact-word overlap scoring of the level-3-normalized query against each
record's level-3-normalized name. -/
def mara_makom_word_match_search (abbrs : List (String × String))
    (maamar_name : String) (maamarim : List (String × Maamar)) (top_n : ℕ) :
    List Candidate :=
  if maamar_name = "" then []
  else
    let qws := maraQueryWords abbrs maamar_name
    if qws.isEmpty then []
    else (mara_makom_ranked abbrs qws maamarim).take top_n

/-! ## Keyword helpers -/

/-- Insertion-ordered dictionary write: overwrite an existing key in place,
otherwise append (`d[k] = v`). -/
def dictSet [DecidableEq α] (l : List (α × β)) (k : α) (v : β) : List (α × β) :=
  if (l.lookup k).isSome then
    l.map (fun p => if p.1 = k then (k, v) else p)
  else l ++ [(k, v)]

/-- Order-preserving de-duplication keeping first occurrences
(Python's seen-set idiom). -/
def orderedDedup [DecidableEq α] (l : List α) : List α :=
  (l.foldl (fun acc x => if acc.contains x then acc else x :: acc) []).reverse

/-- One row update of the longest-common-subsequence table. `prevTail` is the
remaining previous row, `diag`/`left` the table neighbours. -/
def lcsRowAux : List Char → Char → List ℕ → ℕ → ℕ → List ℕ
  | [], _, _, _, _ => []
  | ca :: as, cb, up :: rest, diag, left =>
    let v := if ca = cb then diag + 1 else max left up
    v :: lcsRowAux as cb rest up v
  | _ :: _, _, [], _, _ => []

/-- Longest common subsequence length (dynamic programming). -/
def lcsLen (a b : List Char) : ℕ :=
  let finalRow := b.foldl
    (fun row cb =>
      match row with
      | p0 :: rest => 0 :: lcsRowAux a cb rest p0 0
      | [] => [])
    (List.replicate (a.length + 1) 0)
  finalRow.getLast?.getD 0

/-- `rapidfuzz.fuzz.ratio(a, b)` as an exact rational:
`100 * (1 - indel_distance/(|a|+|b|)) = 200 * lcs/(|a|+|b|)`. -/
def fuzzRatioQ (a b : List Char) : ℚ :=
  if a.isEmpty ∧ b.isEmpty then 100
  else 200 * (lcsLen a b : ℚ) / ((a.length : ℚ) + (b.length : ℚ))

/-- The stop-word set shared by `keyword_search` (fallback mode) and
`_tokenize_query_keywords`. -/
def stopWords : List String :=
  ["מה", "מי", "איך", "למה", "האם", "איפה", "מתי", "כמה",
   "של", "על", "את", "עם", "לפי", "אל", "מן", "ב", "ל", "כ", "מ",
   "הרב", "רב", "דעת", "אומר", "מסביר", "מדבר", "אומרים",
   "זה", "זו", "זאת", "אלה", "אלו",
   "כל", "כולם", "כולן", "הכל",
   "יש", "אין", "יהיה", "היה",
   "או", "וגם", "אבל", "רק", "גם", "אף", "כי", "אם", "ש"]

/-- `_count_phrase_mentions_in_text(text, phrases)` over the alias table
`aliases` (`_KEYWORD_ALIASES`): per phrase, sum the non-overlapping
occurrence counts of each level-3-normalized alias inside the
level-3-normalized text; keys are the stripped phrases. -/
def count_phrase_mentions_in_text (aliases : List (String × List String))
    (text : String) (phrases : List String) : List (String × ℕ) :=
  if text = "" ∨ phrases.isEmpty then []
  else
    let norm_text := normalize_text text 3
    phrases.foldl
      (fun acc ph =>
        if ph = "" then acc
        else
          let ph0 := pyStrip ph
          let als :=
            match aliases.lookup ph0 with
            | some l => if l.isEmpty then [ph0] else l
            | none => [ph0]
          let total := als.foldl
            (fun t a =>
              let a_norm := normalize_text a 3
              if a_norm = "" then t else t + countSubOcc a_norm.data norm_text.data)
            0
          dictSet acc ph0 total)
      []

/-- `_count_keyword_mentions_in_text(text, tokens)` : total word-boundary
occurrences of the tokens in the level-3-normalized text. -/
def count_keyword_mentions_in_text (text : String) (tokens : List String) : ℕ :=
  if text = "" ∨ tokens.isEmpty then 0
  else
    let norm_text := normalize_text text 3
    if norm_text = "" then 0
    else
      tokens.foldl
        (fun t tok =>
          if tok = "" then t else t + countBoundedOcc tok.data norm_text.data)
        0

/-- `question_words_list` : the normalized question words minus stop words
and single-character tokens (the fallback word list of `keyword_search`, and
the base of `_tokenize_query_keywords`'s fallback). -/
def questionWordsList (question : String) : List String :=
  ((pySplitWs (normalize_text question 3).data).map String.mk).filter
    (fun w => ¬ stopWords.contains w ∧ 1 < w.data.length)

/-- The fallback branch of `_tokenize_query_keywords` : normalized question
words minus stop words, each vav-prefixed word also contributed without its
leading vav, de-duplicated in order. -/
def tokenizeFallbackWords (question : String) : List String :=
  let base := questionWordsList question
  let expanded := base.flatMap (fun w =>
    if startsWithList ['ו'] w.data ∧ 2 < w.data.length then
      [w, String.mk (w.data.drop 1)]
    else [w])
  orderedDedup (expanded.filter (fun t => t ≠ ""))

/-- `_tokenize_query_keywords(question, extracted_keywords)` : the token list
used for mention-count tie-breaking. -/
def tokenize_query_keywords (question : String)
    (extracted : Option (List String)) : List String :=
  match extracted with
  | some kws =>
    if ¬ kws.isEmpty then
      orderedDedup (kws.flatMap (fun kw =>
        (((pySplitWs (normalize_text kw 3).data).map String.mk).map pyStrip).filter
          (fun t => t ≠ "")))
    else tokenizeFallbackWords question
  | none => tokenizeFallbackWords question

/-- `_rank_ties_by_keyword_mentions(results, tokens)` : stable re-sort by
`(score, mention count)` descending. -/
def rank_ties_by_keyword_mentions (results : List Candidate)
    (tokens : List String) : List Candidate :=
  if results.isEmpty ∨ tokens.isEmpty then results
  else
    pySortDescBy
      (fun c => toLex (c.score, count_keyword_mentions_in_text c.text tokens))
      results

/-! ## Keyword reranking (`keyword_search`) -/

/-- The de-duplication of the AI keyword list at the top of
`keyword_search` : skip blank keywords and keywords whose level-3
normalization is blank, and keep only the first keyword per normalized
form. -/
def kwDedup (ai : List String) : List String :=
  (ai.foldl
    (fun (acc : List String × List String) kw0 =>
      let kw := pyStrip kw0
      if kw = "" then acc
      else
        let norm := pyStrip (normalize_text kw 3)
        if norm = "" then acc
        else if acc.1.contains norm then acc
        else (norm :: acc.1, kw :: acc.2))
    ([], [])).2.reverse

/-- `normalized_keywords` of one candidate: the precomputed
`keywords_all_normalized` column when present with matching length,
otherwise computed on the fly. -/
def normalizedKeywordsOf (c : Candidate) : List String :=
  if ¬ c.keywords_all_normalized.isEmpty ∧
      c.keywords_all_normalized.length = c.keywords_all.length then
    c.keywords_all_normalized
  else c.keywords_all.map (fun kw => normalize_text kw 3)

/-- `cand_norm_kws` of one candidate: as `normalizedKeywordsOf`, except that
the on-the-fly branch first drops blank keywords (the source comprehension
filters `if kw`). -/
def candNormKwsOf (c : Candidate) : List String :=
  if ¬ c.keywords_all_normalized.isEmpty ∧
      c.keywords_all_normalized.length = c.keywords_all.length then
    c.keywords_all_normalized
  else (c.keywords_all.filter (fun kw => kw ≠ "")).map (fun kw => normalize_text kw 3)

/-- The `normalized_to_original` dictionary: first-writer-wins mapping from
each normalized keyword, and from each word inside it, back to the original
curated keyword. -/
def normToOrigMap (c : Candidate) : List (String × String) :=
  (List.range c.keywords_all.length).foldl
    (fun acc i =>
      let kw := c.keywords_all.getD i ""
      let normalized :=
        if ¬ c.keywords_all_normalized.isEmpty ∧ i < c.keywords_all_normalized.length then
          c.keywords_all_normalized.getD i ""
        else normalize_text kw 3
      let acc1 :=
        if normalized ≠ "" ∧ (acc.lookup normalized).isNone then acc ++ [(normalized, kw)]
        else acc
      ((pySplitWs normalized.data).map String.mk).foldl
        (fun a t => if t ≠ "" ∧ (a.lookup t).isNone then a ++ [(t, kw)] else a)
        acc1)
    []

/-- The per-extracted-keyword resolution of AI-keyword mode: literal match
against the curated list, then normalized match, then fuzzy-ratio match with
threshold 85; returns the resolved curated keyword.  (When the record has a
mismatched `keywords_all_normalized` column alongside blank curated
keywords, the Python indexes past the end of `cand_norm_kws` and raises;
this embedding reads `""` there — no call evaluated in this file hits that
corner.) -/
def aiMatchOne (c : Candidate) (cnk : List String) (kw : String) : Option String :=
  let qn := pyStrip (normalize_text kw 3)
  if qn = "" then none
  else if c.keywords_all.contains kw then some kw
  else
    match (List.range c.keywords_all.length).find?
        (fun i => c.keywords_all.getD i "" ≠ "" ∧ qn = cnk.getD i "") with
    | some i => some (c.keywords_all.getD i "")
    | none =>
      let best := (List.range cnk.length).foldl
        (fun (acc : ℚ × Option String) i =>
          let cn := cnk.getD i ""
          if cn = "" then acc
          else
            let s := fuzzRatioQ qn.data cn.data
            if s > acc.1 then
              (s, if i < c.keywords_all.length then some (c.keywords_all.getD i "") else none)
            else acc)
        (0, none)
      match best.2 with
      | some t => if best.1 ≥ 85 ∧ t ≠ "" then some t else none
      | none => none

/-- The score-update rule at the end of the `keyword_search` candidate loop:
a candidate that entered with no fuzzy signal and the flat general-question
score 50 has its score replaced by the keyword score; otherwise it receives
`int(keyword_score/100*20)` bonus points capped at a total of 100. -/
def keywordScoreUpdate (oldScore oldFuzzy kwScore : ℤ) : ℤ :=
  if oldFuzzy = 0 ∧ oldScore = 50 then kwScore
  else min 100 (oldScore + pyIntQ ((kwScore : ℚ) / 100 * 20))

/-- `int(found_ratio * 100)` : the keyword score from a found count and a
total. -/
def keywordRatioScore (foundCount total : ℕ) : ℤ :=
  pyIntQ ((foundCount : ℚ) / (total : ℚ) * 100)

/-- `found_phrases` of AI-keyword mode, as a set (each extracted keyword
that resolves against the candidate's curated list), in `dedup` order. -/
def aiFoundPhrases (c : Candidate) (dedup : List String) : List String :=
  (dedup.filter (fun kw => (aiMatchOne c (candNormKwsOf c) kw).isSome)).dedup

/-- The `question_to_table_keyword` mapping of AI-keyword mode. -/
def aiQuestionToTable (c : Candidate) (dedup : List String) :
    List (String × String) :=
  dedup.filterMap (fun kw => (aiMatchOne c (candNormKwsOf c) kw).map (fun t => (kw, t)))

/-- `phrases_to_search` : each extracted keyword replaced by its resolved
curated keyword when one exists. -/
def aiPhrasesToSearch (c : Candidate) (dedup : List String) : List String :=
  dedup.map (fun kw => ((aiQuestionToTable c dedup).lookup kw).getD kw)

/-- `counts_all` : per extracted keyword, the mention count of its searched
phrase in the candidate text. -/
def aiCountsAll (aliases : List (String × List String)) (c : Candidate)
    (dedup : List String) : List (String × ℕ) :=
  let phrases := aiPhrasesToSearch c dedup
  let raw := count_phrase_mentions_in_text aliases c.text phrases
  (dedup.zip phrases).foldl
    (fun acc kp => dictSet acc kp.1 ((raw.lookup kp.2).getD 0)) []

/-- `found_in_text` : the extracted keywords with a positive mention count. -/
def aiFoundInText (aliases : List (String × List String)) (c : Candidate)
    (dedup : List String) : List String :=
  dedup.filter (fun kw => 0 < ((aiCountsAll aliases c dedup).lookup kw).getD 0)

/-- The token set of the candidate's normalized curated keywords
(`' '.join(normalized_keywords).split()`), used in fallback mode. -/
def fallbackKeywordsSet (c : Candidate) : List String :=
  (pySplitWs (joinSpace ((normalizedKeywordsOf c).map String.data))).map String.mk

/-- The fallback-mode `matching_words` set: distinct question words found
among the candidate's normalized keyword tokens. -/
def fallbackMatching (c : Candidate) (qwl : List String) : List String :=
  (qwl.dedup).filter (fun w => (fallbackKeywordsSet c).contains w)

/-- `total = len(ai_keywords_dedup) or 1`. -/
def aiTotalOf (dedup : List String) : ℕ :=
  if dedup.length = 0 then 1 else dedup.length

/-- The curated-list match phase of one `keyword_search` candidate
iteration: `matching_words` (as an ordered set) and the keyword score it
induces, before text counting. -/
def keywordMatchPhase (dedupOpt : Option (List String)) (qwl : List String)
    (c : Candidate) : List String × ℤ :=
  if ¬ c.keywords_all.isEmpty then
    match dedupOpt with
    | some dedup =>
      let fp := aiFoundPhrases c dedup
      (fp, if ¬ fp.isEmpty then keywordRatioScore fp.length (aiTotalOf dedup) else 0)
    | none =>
      let m := fallbackMatching c qwl
      (m, if ¬ m.isEmpty then keywordRatioScore m.length qwl.length else 0)
  else ([], 0)

/-- The matching portion of one `keyword_search` candidate iteration: the
final `matching_words` set, the per-keyword text-mention counts and the
keyword score, before the score update. -/
def keywordMatchInfo (aliases : List (String × List String))
    (dedupOpt : Option (List String)) (qwl : List String) (c : Candidate) :
    List String × List (String × ℕ) × ℤ :=
  let m1 := (keywordMatchPhase dedupOpt qwl c).1
  match dedupOpt with
  | some dedup =>
    if c.text ≠ "" then
      let counts := aiCountsAll aliases c dedup
      let fit := aiFoundInText aliases c dedup
      let mF := if ¬ fit.isEmpty then (m1 ++ fit).dedup else m1
      (mF, counts,
        if ¬ mF.isEmpty then keywordRatioScore mF.length (aiTotalOf dedup) else 0)
    else (m1, [], (keywordMatchPhase dedupOpt qwl c).2)
  | none => (m1, [], (keywordMatchPhase dedupOpt qwl c).2)

/-- One iteration of the candidate loop of `keyword_search`.
`dedupOpt` is `ai_keywords_dedup`, `qwl` is `question_words_list` (fallback
mode only). Returns the updated candidate together with the
`(_min_kw_count, _sum_kw_count)` tie-break pair. -/
def keywordProcessOne (aliases : List (String × List String))
    (dedupOpt : Option (List String)) (qwl : List String) (c : Candidate) :
    Candidate × ℕ × ℕ :=
  let info := keywordMatchInfo aliases dedupOpt qwl c
  let matchingF := info.1
  let counts_all := info.2.1
  let kwScore := info.2.2
  -- update phase
  if ¬ matchingF.isEmpty then
    let score' := keywordScoreUpdate c.score c.fuzzy_score kwScore
    match dedupOpt with
    | some dedup =>
      let matched_list := dedup.filter (fun kw => matchingF.contains kw)
      let all_counts := dedup.map (fun kw => (counts_all.lookup kw).getD 0)
      let minc := all_counts.min?.getD 0
      let sumc := all_counts.sum
      ({ c with keyword_score := kwScore, score := score',
                matched_keywords := matched_list,
                matched_keyword_counts := dedup.map
                  (fun kw => (kw, (counts_all.lookup kw).getD 0)) },
        minc, sumc)
    | none =>
      let matching_original := matchingF.map (fun w => ((normToOrigMap c).lookup w).getD w)
      let matched_list := pySortAscBy id matching_original.dedup
      ({ c with keyword_score := kwScore, score := score',
                matched_keywords := matched_list,
                matched_keyword_counts :=
                  count_phrase_mentions_in_text aliases c.text matched_list },
        0, 0)
  else (c, 0, 0)

/-- `keyword_search(question, candidates)` with `require_ai_keywords=False`
and no `forced_keywords` — the configuration used at both orchestrator call
sites.  `aiOutcome` is the value returned by
`extract_keywords_from_question(question)` (`none` models every failure
path).  Returns the re-ranked candidates and `extracted_keywords`.
(When the AI list is nonempty but every entry normalizes to blank, the
Python references the undefined `question_words_set` and raises `NameError`;
the embedding reads an empty fallback list there — no call evaluated in
this file hits that corner.) -/
def keyword_search (aliases : List (String × List String))
    (aiOutcome : Option (List String)) (question : String)
    (candidates : List Candidate) : List Candidate × Option (List String) :=
  if question = "" ∨ candidates.isEmpty then (candidates, none)
  else
    let aiMode := match aiOutcome with | some l => ¬ l.isEmpty | none => false
    let dedupL := match aiOutcome with | some l => kwDedup l | none => []
    let dedupOpt := if aiMode && ¬ dedupL.isEmpty then some dedupL else none
    let qwl := if aiMode then [] else questionWordsList question
    let extracted : Option (List String) :=
      if aiMode then aiOutcome else some (orderedDedup qwl)
    let triples := candidates.map (keywordProcessOne aliases dedupOpt qwl)
    if dedupOpt.isSome then
      ((pySortDescBy (fun t => toLex (t.1.score, toLex (t.2.1, t.2.2))) triples).map
          (fun t => t.1),
        extracted)
    else
      (pySortDescBy (fun c => c.score) (triples.map (fun t => t.1)), extracted)

/-! ## Semantic blending (`cosine_similarity`, `semantic_search`) -/

/-- `np.dot` of two equal-length vectors. -/
def dotQ (v w : List ℚ) : ℚ :=
  ((v.zip w).map (fun p => p.1 * p.2)).sum

/-- Floor integer square root (linear scan; structurally recursive so the
kernel can evaluate it). -/
def intSqrt (n : ℕ) : ℕ :=
  ((List.range (n + 1)).filter (fun r => r * r ≤ n)).foldl max 0

/-- Exact square root on ℚ, used to model `np.linalg.norm`'s square root.
It is exact whenever numerator and denominator of the argument are perfect
squares — which holds for every vector evaluated in this file, where the
binary-float square root is exact as well. -/
def sqrtQ (q : ℚ) : ℚ :=
  (intSqrt q.num.toNat : ℚ) / (intSqrt q.den : ℚ)

/-- `cosine_similarity(vec1, vec2)` (numpy available): dot product over the
product of Euclidean norms, `0.0` when either norm vanishes. -/
def cosine_similarity (vec1 vec2 : List ℚ) : ℚ :=
  let dot := dotQ vec1 vec2
  let norm1 := sqrtQ (dotQ vec1 vec1)
  let norm2 := sqrtQ (dotQ vec2 vec2)
  if norm1 = 0 ∨ norm2 = 0 then 0
  else dot / (norm1 * norm2)

/-- The per-candidate blend of `semantic_search` :
`semantic_score = int(similarity*100)` and
`score = int(score*0.7 + semantic_score*0.3)`. -/
def semanticBlendOne (qEmb : List ℚ) (c : Candidate) : Candidate :=
  let similarity := cosine_similarity qEmb (c.embedding.getD [])
  let semantic_score := pyIntQ (similarity * 100)
  { c with score := pyIntQ ((c.score : ℚ) * (7 / 10) + (semantic_score : ℚ) * (3 / 10)),
           semantic_score := semantic_score }

/-- `semantic_search(question, candidates)` : no-op unless the feature flag
is on, some candidate carries an embedding and the embedding request
succeeds (`qEmb = none` models the caught request failure, as well as
missing `openai`/`numpy`).  On success only the candidates carrying
embeddings are blended, re-sorted and returned — candidates without
embeddings are dropped from the returned list. -/
def semantic_search (enabled : Bool) (qEmb : Option (List ℚ))
    (question : String) (candidates : List Candidate) : List Candidate :=
  if question = "" ∨ candidates.isEmpty then candidates
  else if ¬ enabled then candidates
  else
    let withEmb := candidates.filter (fun c => hasEmbedding c)
    if withEmb.isEmpty then candidates
    else
      match qEmb with
      | none => candidates
      | some qe =>
        pySortDescBy (fun c => c.score) (withEmb.map (semanticBlendOne qe))

/-! ## Keyword extraction adapter (`extract_keywords_from_question`) -/

/-- ASCII `str.lower()` (Hebrew has no case; the only comparison made is
against a Hebrew literal). -/
def pyLower (s : String) : String :=
  String.mk (s.data.map Char.toLower)

/-- The multi-word number phrases stripped from extracted keywords. -/
def numberPhrases : List String :=
  ["אחד עשרה", "אחד עשר", "שתיים עשרה", "שתיים עשר", "שלוש עשרה", "שלוש עשר",
   "ארבע עשרה", "ארבע עשר", "חמש עשרה", "חמש עשר", "שש עשרה", "שש עשר",
   "שבע עשרה", "שבע עשר", "שמונה עשרה", "שמונה עשר", "תשע עשרה", "תשע עשר",
   "שלוש מאות", "ארבע מאות", "חמש מאות", "שש מאות", "שבע מאות", "שמונה מאות",
   "תשע מאות"]

/-- The single number words stripped from extracted keywords. -/
def numberWords : List String :=
  ["אחד", "שתיים", "שלוש", "ארבע", "חמש", "שש", "שבע", "שמונה", "תשע", "עשר",
   "עשרה", "עשרים", "שלושים", "ארבעים", "חמישים", "שישים", "שבעים", "שמונים",
   "תשעים", "מאה", "מאתיים",
   "יא", "יב", "יג", "יד", "טו", "טז", "יז", "יח", "יט", "כ", "ל"]

/-- `_remove_numbers_from_keyword(keyword)` : strip number phrases (longest
first) and number words; return the original keyword when the result is
empty or unchanged. -/
def remove_numbers_from_keyword (keyword : String) : String :=
  if keyword = "" then keyword
  else
    let phrasesSorted := pySortDescBy (fun p => p.data.length) numberPhrases
    let result := phrasesSorted.foldl
      (fun (r : List Char) ph =>
        if containsSub ph.data r then
          pyReplaceAll (' ' :: ph.data) []
            (pyReplaceAll (ph.data ++ [' ']) []
              (pyReplaceAll (' ' :: ph.data ++ [' ']) [' '] r))
        else r)
      keyword.data
    let ws := (pySplitWs result).map String.mk
    let filtered := ws.filter (fun w => ¬ numberWords.contains w)
    let result_final := pyStrip (String.mk (joinSpace (filtered.map String.data)))
    if result_final = "" ∨ result_final = keyword then keyword else result_final

/-- The conjunction-splitting pass of `extract_keywords_from_question` :
split keywords on `" ו"`, and strip a leading bare vav. -/
def splitConjunctions (keywords : List String) : List String :=
  keywords.flatMap (fun kw =>
    if containsSub (' ' :: ['ו']) kw.data then
      ((pySplitOnSub (' ' :: ['ו']) kw.data).map (fun p => pyStrip (String.mk p))).filter
        (fun p => p ≠ "")
    else if startsWithList ['ו'] kw.data ∧ 1 < kw.data.length then
      [pyStrip (String.mk (kw.data.drop 1))]
    else [kw])

/-- The number-removal pass: use the cleaned keyword only when it is
nonempty and differs from the original. -/
def removeNumbersPass (keywords : List String) : List String :=
  keywords.map (fun kw =>
    let cleaned := remove_numbers_from_keyword kw
    if cleaned ≠ "" ∧ pyStrip cleaned ≠ "" ∧ cleaned ≠ kw then cleaned else kw)

/-- The final length filter: keep keywords whose quote-stripped form has at
least three characters, or which contain a quote glyph. -/
def keywordLengthFilter (keywords : List String) : List String :=
  keywords.filter (fun kw =>
    let noQuotes := pyStrip (String.mk (kw.data.filter (fun c => ¬ isQuoteGlyph c)))
    3 ≤ noQuotes.data.length ∨ kw.data.any (fun c => quoteGlyphs.contains c))

/-- Parse a successful chat-completion answer into the keyword list
(the body of the `response.status_code == 200` branch after the `אין`
check). -/
def parseKeywordsAnswer (answer : String) : List String :=
  let byComma := ((pySplitChar ',' answer.data).map (fun p => pyStrip (String.mk p))).filter
    (fun p => p ≠ "")
  let keywords :=
    if byComma.isEmpty then
      ((pySplitChar '\n' answer.data).map (fun p => pyStrip (String.mk p))).filter
        (fun p => p ≠ "" ∧ p ≠ "אין")
    else byComma
  let expanded := if ¬ keywords.isEmpty then splitConjunctions keywords else keywords
  let cleaned := removeNumbersPass expanded
  keywordLengthFilter (pySortAscBy id cleaned)

/-- The possible outcomes of the external chat-completion call inside
`extract_keywords_from_question`. -/
inductive KimiOutcome where
  /-- `requests` is not installed (`HAS_REQUESTS` false). -/
  | noRequests
  /-- `GROQ_API_KEY` missing. -/
  | noApiKey
  /-- `response.status_code != 200`. -/
  | httpFailure
  /-- the request raised (timeout, transport error, malformed body). -/
  | transportError
  /-- a 200 response whose message content, stripped, is `answer`. -/
  | success (answer : String)
deriving DecidableEq, Repr

/-- `extract_keywords_from_question(question)` : the in-process cache
(`_EXTRACTED_KEYWORDS_CACHE`) is threaded explicitly; `outcome` models the
single external call made on a cache miss.  Returns the Python return value
(`none` = `None`) together with the cache after the call. -/
def extract_keywords_from_question (outcome : KimiOutcome)
    (cache : List (String × List String)) (question : String) :
    Option (List String) × List (String × List String) :=
  let q_key := pyStrip question
  match (if q_key ≠ "" then cache.lookup q_key else none) with
  | some cached => (some cached, cache)
  | none =>
    match outcome with
    | KimiOutcome.noRequests => (none, cache)
    | KimiOutcome.noApiKey => (none, cache)
    | KimiOutcome.httpFailure => (none, cache)
    | KimiOutcome.transportError => (none, cache)
    | KimiOutcome.success answer =>
      if pyLower answer = "אין" then (some [], dictSet cache q_key [])
      else
        let keywords := parseKeywordsAnswer answer
        if q_key ≠ "" then (some keywords, dictSet cache q_key keywords)
        else (some keywords, cache)

/-! ## Orchestrator (`search_maamar`) -/

/-- The externally-loaded tables and external-service outcomes that
`search_maamar` consults: the abbreviation table and alias table from the
corpus metadata, the (cached) result of `extract_keywords_from_question` on
the query's question, the `ENABLE_SEMANTIC_SEARCH` flag, and the question
embedding returned by the provider (`none` models any caught failure). -/
structure SearchEnv where
  abbreviations : List (String × String)
  keyword_aliases : List (String × List String)
  aiKeywords : Option (List String)
  semanticEnabled : Bool
  questionEmbedding : Option (List ℚ)
deriving Repr

/-- The year-only candidate dictionary (score 100, no fuzzy signal). -/
def yearCandidateOf (key : String) (m : Maamar) : Candidate :=
  { key := key, name := m.name, year := m.year, filename := m.filename,
    text := m.text, keywords_all := m.keywords_all,
    keywords_all_normalized := [], embedding := m.embedding,
    score := 100, fuzzy_score := 0, keyword_score := 0, semantic_score := 0,
    words_found := 0, total_words := 0,
    matched_keywords := [], matched_keyword_counts := [] }

/-- The year-only branch of `search_maamar` (step 2.5): list records whose
normalized year matches, optionally rerank by the question, apply the
`min_score` floor, truncate. -/
def search_year_branch (env : SearchEnv) (maamarim : List (String × Maamar))
    (year_normalized question : String) (max_results min_score : ℤ)
    (use_semantic : Bool) : List Candidate :=
  let results := maamarim.filterMap (fun km =>
    if norm_year km.2.year = year_normalized then some (yearCandidateOf km.1 km.2)
    else none)
  let results2 :=
    if question ≠ "" ∧ ¬ results.isEmpty then
      let ks := keyword_search env.keyword_aliases env.aiKeywords question results
      let r2 :=
        if use_semantic && ks.1.any hasEmbedding then
          semantic_search env.semanticEnabled env.questionEmbedding question ks.1
        else ks.1
      rank_ties_by_keyword_mentions r2 (tokenize_query_keywords question ks.2)
    else results
  let results3 :=
    if min_score > 0 then results2.filter (fun r => min_score ≤ r.score) else results2
  pySliceTo max_results results3

/-- `top_n` passed to the mareh-makom search by the title branch:
`max_results * 2` when positive, otherwise 1000. -/
def topNOf (max_results : ℤ) : ℕ :=
  if max_results > 0 then (2 * max_results).toNat else 1000

/-- The year filter of the title branch (step 3.5): keep candidates whose
year (direct field, else extracted from the name) normalizes to the
requested year; candidates with no determinable year are dropped. -/
def title_year_filter (year_normalized : String) (results : List Candidate) :
    List Candidate :=
  if year_normalized ≠ "" ∧ ¬ results.isEmpty then
    results.filter (fun r =>
      let myear :=
        if r.year ≠ "" then r.year
        else match searchYear r.name.data with
             | some y => String.mk y
             | none => ""
      myear ≠ "" ∧ norm_year myear = year_normalized)
  else results

/-- The candidate pool of the title branch: ranked mareh-makom results
truncated to `top_n`, then year-filtered. -/
def title_pool (env : SearchEnv) (maamarim : List (String × Maamar))
    (clean_name year_normalized : String) (max_results : ℤ) : List Candidate :=
  title_year_filter year_normalized
    (mara_makom_word_match_search env.abbreviations clean_name maamarim
      (topNOf max_results))

/-- The per-candidate sort key of the question-aware title re-sort:
`(words-found percentage, has all extracted keywords, total keyword
mentions)`, descending. -/
def titleQuestionSortKey (aliases : List (String × List String))
    (ks : List String) (r : Candidate) : ℚ ×ₗ Bool ×ₗ ℕ :=
  let counts := count_phrase_mentions_in_text aliases r.text ks
  let found := ks.countP (fun kw => 0 < (counts.lookup kw).getD 0)
  let total_mentions := (ks.map (fun kw => (counts.lookup kw).getD 0)).sum
  let has_all := found = ks.length
  let pct : ℚ :=
    if 0 < r.total_words then (r.words_found : ℚ) / (r.total_words : ℚ) * 100
    else if r.words_found = 0 then 0 else 100
  toLex (pct, toLex (has_all, total_mentions))

/-- The question-aware re-sort of the title branch: with extracted keywords,
sort by `titleQuestionSortKey`; with a question but no keywords, sort by
`words_found` alone; with no question, keep the pool order. -/
def title_resort (env : SearchEnv) (question : String) (pool : List Candidate) :
    List Candidate :=
  if question ≠ "" ∧ ¬ pool.isEmpty then
    match env.aiKeywords with
    | some ks =>
      if ¬ ks.isEmpty then
        pySortDescBy (titleQuestionSortKey env.keyword_aliases ks) pool
      else pySortDescBy (fun r => r.words_found) pool
    | none => pySortDescBy (fun r => r.words_found) pool
  else pool

/-- `clean_name` : the title reduced by `extract_maamar_name_only`, falling
back to the raw title when the reduction is empty. -/
def title_clean_name (maamar_name : String) : String :=
  if extract_maamar_name_only maamar_name = "" then maamar_name
  else extract_maamar_name_only maamar_name

/-- `max_words_found` over a candidate pool. -/
def title_max_words_found (pool : List Candidate) : ℕ :=
  (pool.map (fun r => r.words_found)).foldl max 0

/-- `is_perfect` : the pool head's `total_words` is nonzero and attained by
the best overlap. -/
def title_is_perfect (pool : List Candidate) : Bool :=
  match pool with
  | [] => false
  | r0 :: _ => r0.total_words ≠ 0 ∧ r0.total_words ≤ title_max_words_found pool

/-- The title-present branch of `search_maamar` (step 3), after parameter
pre-processing: mareh-makom matching, year filter, optional question-based
re-ranking, then the perfect-match rule (all perfect-overlap candidates, the
first `max_results` of them when `max_results > 0`), else the first
`max_results` (or 3) candidates. -/
def title_branch (env : SearchEnv) (maamarim : List (String × Maamar))
    (maamar_name year_normalized question : String) (max_results : ℤ) :
    List Candidate :=
  let pool := title_pool env maamarim (title_clean_name maamar_name)
    year_normalized max_results
  match pool with
  | [] => []
  | r0 :: rest =>
    let ranked := title_resort env question (r0 :: rest)
    if title_is_perfect (r0 :: rest) then
      let perfect := ranked.filter (fun r => r0.total_words ≤ r.words_found)
      if max_results ≤ 0 then perfect else perfect.take max_results.toNat
    else
      ranked.take (if max_results > 0 then max_results.toNat else 3)

/-- The flat-scored candidate of the question-only branch (score 50). -/
def flatCandidateOf (key : String) (m : Maamar) : Candidate :=
  { key := key, name := m.name, year := "", filename := m.filename,
    text := m.text, keywords_all := m.keywords_all,
    keywords_all_normalized := [], embedding := m.embedding,
    score := 50, fuzzy_score := 0, keyword_score := 0, semantic_score := 0,
    words_found := 0, total_words := 0,
    matched_keywords := [], matched_keyword_counts := [] }

/-- The question-only branch of `search_maamar` (step 4): flat score 50,
keyword reranking, optional semantic blend, mention tie-break, truncation —
with no `min_score` floor. -/
def question_branch (env : SearchEnv) (maamarim : List (String × Maamar))
    (question : String) (max_results : ℤ) (use_semantic : Bool) :
    List Candidate :=
  if question = "" then []
  else
    let results := maamarim.map (fun km => flatCandidateOf km.1 km.2)
    let ks := keyword_search env.keyword_aliases env.aiKeywords question results
    let r2 :=
      if use_semantic && ks.1.any hasEmbedding then
        semantic_search env.semanticEnabled env.questionEmbedding question ks.1
      else ks.1
    let r3 := rank_ties_by_keyword_mentions r2 (tokenize_query_keywords question ks.2)
    pySliceTo max_results r3

/-- `search_maamar(maamar_name, year, question, max_results, min_score,
use_semantic)` : quote stripping (the `exact_match_only` flag the source
computes here is never read again), `מאמר`/digit cleaning, year extraction
and normalization, then dispatch to the year-only / title-present /
question-only branch. -/
def search_maamar (env : SearchEnv) (maamarim : List (String × Maamar))
    (maamar_name0 year0 question : String) (max_results min_score : ℤ)
    (use_semantic : Bool) : List Candidate :=
  let stripped := pyStrip maamar_name0
  let quoted := startsWithList ['"'] stripped.data ∧ stripped.data.getLast? = some '"'
  let maamar_name1 :=
    if maamar_name0 ≠ "" ∧ quoted then String.mk ((stripped.data.drop 1).dropLast)
    else maamar_name0
  let maamar_name2 :=
    if maamar_name1 ≠ "" then clean_maamar_name (pyStrip maamar_name1) else maamar_name1
  let step3 :=
    if maamar_name2 ≠ "" ∧ year0 = "" then
      match extract_year_from_text maamar_name2 with
      | (cleaned, some y) => (cleaned, y)
      | (_, none) => (maamar_name2, year0)
    else (maamar_name2, year0)
  let maamar_name3 := step3.1
  let year1 := step3.2
  let year_normalized := if year1 ≠ "" then norm_year year1 else ""
  let has_name := maamar_name3 ≠ "" ∧ pyStrip maamar_name3 ≠ ""
  if year_normalized ≠ "" ∧ ¬ has_name then
    search_year_branch env maamarim year_normalized question max_results min_score
      use_semantic
  else if has_name then
    title_branch env maamarim maamar_name3 year_normalized question max_results
  else
    question_branch env maamarim question max_results use_semantic

/-! ## Lemmas on whitespace splitting and joining -/

theorem pySplitWsAux_words_ok (l : List Char) :
    ∀ acc : List Char, (∀ c ∈ acc, isPySpace c = false) →
      ∀ w ∈ pySplitWsAux l acc, w ≠ [] ∧ ∀ c ∈ w, isPySpace c = false := by
  induction l with
  | nil =>
    intro acc hacc w hw
    simp only [pySplitWsAux] at hw
    by_cases h : acc.isEmpty
    · simp [h] at hw
    · rw [if_neg h] at hw
      rw [List.mem_singleton] at hw
      subst hw
      refine ⟨by simpa [List.isEmpty_iff] using h, ?_⟩
      intro c hc
      exact hacc c (by simpa using hc)
  | cons c rest ih =>
    intro acc hacc w hw
    simp only [pySplitWsAux] at hw
    by_cases hsp : isPySpace c
    · rw [if_pos hsp] at hw
      by_cases h : acc.isEmpty
      · rw [if_pos h] at hw
        exact ih [] (by simp) w hw
      · rw [if_neg h] at hw
        rcases List.mem_cons.mp hw with heq | hmem
        · subst heq
          refine ⟨by simpa [List.isEmpty_iff] using h, ?_⟩
          intro x hx
          exact hacc x (by simpa using hx)
        · exact ih [] (by simp) w hmem
    · rw [if_neg hsp] at hw
      refine ih (c :: acc) ?_ w hw
      intro x hx
      rcases List.mem_cons.mp hx with heq | hx
      · subst heq
        simpa using hsp
      · exact hacc x hx

theorem pySplitWsAux_mem_chars (l : List Char) :
    ∀ acc w, w ∈ pySplitWsAux l acc → ∀ c ∈ w, c ∈ l ∨ c ∈ acc := by
  induction l with
  | nil =>
    intro acc w hw c hc
    simp only [pySplitWsAux] at hw
    by_cases h : acc.isEmpty
    · simp [h] at hw
    · rw [if_neg h] at hw
      rw [List.mem_singleton] at hw
      subst hw
      exact Or.inr (by simpa using hc)
  | cons a rest ih =>
    intro acc w hw c hc
    simp only [pySplitWsAux] at hw
    by_cases hsp : isPySpace a
    · rw [if_pos hsp] at hw
      by_cases h : acc.isEmpty
      · rw [if_pos h] at hw
        rcases ih [] w hw c hc with h1 | h1
        · exact Or.inl (List.mem_cons_of_mem _ h1)
        · simp at h1
      · rw [if_neg h] at hw
        rcases List.mem_cons.mp hw with heq | hmem
        · subst heq
          exact Or.inr (by simpa using hc)
        · rcases ih [] w hmem c hc with h1 | h1
          · exact Or.inl (List.mem_cons_of_mem _ h1)
          · simp at h1
    · rw [if_neg hsp] at hw
      rcases ih (a :: acc) w hw c hc with h1 | h1
      · exact Or.inl (List.mem_cons_of_mem _ h1)
      · rcases List.mem_cons.mp h1 with heq | h1
        · subst heq
          exact Or.inl (List.mem_cons_self _ _)
        · exact Or.inr h1

theorem pySplitWsAux_append_word (w : List Char) :
    ∀ l acc, (∀ c ∈ w, isPySpace c = false) →
      pySplitWsAux (w ++ l) acc = pySplitWsAux l (w.reverse ++ acc) := by
  induction w with
  | nil => intro l acc _; simp
  | cons c w' ih =>
    intro l acc h
    have hc : isPySpace c = false := h c (List.mem_cons_self _ _)
    show pySplitWsAux (c :: (w' ++ l)) acc = _
    rw [pySplitWsAux, if_neg (by simp [hc])]
    rw [ih l (c :: acc) (fun x hx => h x (List.mem_cons_of_mem _ hx))]
    simp

theorem pySplitWs_joinSpace (ws : List (List Char))
    (h : ∀ w ∈ ws, w ≠ [] ∧ ∀ c ∈ w, isPySpace c = false) :
    pySplitWs (joinSpace ws) = ws := by
  induction ws with
  | nil => simp [pySplitWs, joinSpace, pySplitWsAux]
  | cons w tl ih =>
    have hw := h w (List.mem_cons_self _ _)
    match tl, ih with
    | [], _ =>
      show pySplitWs (joinSpace [w]) = [w]
      have hj : joinSpace [w] = w ++ [] := by simp [joinSpace]
      rw [pySplitWs, hj, pySplitWsAux_append_word w [] [] hw.2]
      have hne : w.reverse.isEmpty = false := by
        simp [List.isEmpty_iff, hw.1]
      simp [pySplitWsAux, hne]
    | w2 :: tl', ih =>
      show pySplitWs (joinSpace (w :: w2 :: tl')) = w :: w2 :: tl'
      have hjoin : joinSpace (w :: w2 :: tl') = w ++ (' ' :: joinSpace (w2 :: tl')) := by
        simp [joinSpace]
      rw [pySplitWs, hjoin, pySplitWsAux_append_word w _ [] hw.2]
      have hsp : isPySpace ' ' = true := by decide
      have hne : w.reverse.isEmpty = false := by simp [List.isEmpty_iff, hw.1]
      rw [List.append_nil, pySplitWsAux, if_pos hsp, if_neg (by simp [hne])]
      rw [List.reverse_reverse, ← pySplitWs,
        ih (fun x hx => h x (List.mem_cons_of_mem _ hx))]

theorem joinSpace_head_ok (ws : List (List Char))
    (h : ∀ w ∈ ws, w ≠ [] ∧ ∀ c ∈ w, isPySpace c = false) :
    ∀ c, (joinSpace ws).head? = some c → isPySpace c = false := by
  match ws with
  | [] => intro c hc; simp [joinSpace] at hc
  | [w] =>
    intro c hc
    have hw := h w (List.mem_cons_self _ _)
    simp only [joinSpace] at hc
    exact hw.2 c (List.mem_of_mem_head? hc)
  | w :: w2 :: tl =>
    intro c hc
    have hw := h w (List.mem_cons_self _ _)
    simp only [joinSpace] at hc
    match w, hw.1 with
    | x :: w', _ =>
      have hcx : x = c := by simpa using hc
      subst hcx
      exact hw.2 x (List.mem_cons_self _ _)

theorem joinSpace_getLast_ok (ws : List (List Char))
    (h : ∀ w ∈ ws, w ≠ [] ∧ ∀ c ∈ w, isPySpace c = false) :
    ∀ c, (joinSpace ws).getLast? = some c → isPySpace c = false := by
  match ws with
  | [] => intro c hc; simp [joinSpace] at hc
  | [w] =>
    intro c hc
    have hw := h w (List.mem_cons_self _ _)
    simp only [joinSpace] at hc
    exact hw.2 c (List.mem_of_mem_getLast? hc)
  | w :: w2 :: tl =>
    intro c hc
    have htl := joinSpace_getLast_ok (w2 :: tl)
      (fun x hx => h x (List.mem_cons_of_mem _ hx))
    simp only [joinSpace] at hc
    have hne : (' ' :: joinSpace (w2 :: tl)) ≠ [] := by simp
    rw [List.getLast?_append_of_ne_nil _ hne] at hc
    have hw2 := h w2 (List.mem_cons_of_mem _ (List.mem_cons_self _ _))
    have hJne : joinSpace (w2 :: tl) ≠ [] := by
      match w2, hw2.1 with
      | y :: w2', _ =>
        match tl with
        | [] => simp [joinSpace]
        | t :: tl' => simp [joinSpace]
    match hJ : joinSpace (w2 :: tl), hJne with
    | j :: J', _ =>
      rw [hJ, List.getLast?_cons_cons] at hc
      refine htl c ?_
      rw [hJ]
      exact hc

theorem pyStripList_eq_self_of (l : List Char)
    (h1 : ∀ c, l.head? = some c → isPySpace c = false)
    (h2 : ∀ c, l.getLast? = some c → isPySpace c = false) :
    pyStripList l = l := by
  unfold pyStripList
  have hd : l.dropWhile isPySpace = l := by
    cases l with
    | nil => simp
    | cons a t => rw [List.dropWhile_cons, if_neg (by simp [h1 a rfl])]
  rw [hd]
  have hr : l.reverse.dropWhile isPySpace = l.reverse := by
    cases hrv : l.reverse with
    | nil => simp
    | cons a t =>
      have hla : l.getLast? = some a := by
        rw [← List.head?_reverse, hrv, List.head?_cons]
      rw [List.dropWhile_cons, if_neg (by simp [h2 a hla])]
  rw [hr, List.reverse_reverse]

theorem pySplitWs_words_ok (l : List Char) :
    ∀ w ∈ pySplitWs l, w ≠ [] ∧ ∀ c ∈ w, isPySpace c = false :=
  pySplitWsAux_words_ok l [] (by simp)

theorem collapseWs_pyStrip (l : List Char) :
    pyStripList (collapseWs l) = collapseWs l := by
  have hws := pySplitWs_words_ok l
  exact pyStripList_eq_self_of _ (joinSpace_head_ok _ hws) (joinSpace_getLast_ok _ hws)

theorem mem_joinSpace {c : Char} :
    ∀ ws : List (List Char), c ∈ joinSpace ws → c = ' ' ∨ ∃ w ∈ ws, c ∈ w := by
  intro ws
  match ws with
  | [] => intro h; simp [joinSpace] at h
  | [w] =>
    intro h
    simp only [joinSpace] at h
    exact Or.inr ⟨w, List.mem_cons_self _ _, h⟩
  | w :: w2 :: tl =>
    intro h
    simp only [joinSpace, List.mem_append, List.mem_cons] at h
    rcases h with h | h | h
    · exact Or.inr ⟨w, List.mem_cons_self _ _, h⟩
    · exact Or.inl h
    · rcases mem_joinSpace (w2 :: tl) h with h1 | ⟨w', hw', hc⟩
      · exact Or.inl h1
      · exact Or.inr ⟨w', List.mem_cons_of_mem _ hw', hc⟩

theorem mem_of_mem_collapseWs {c : Char} {l : List Char} (h : c ∈ collapseWs l) :
    c = ' ' ∨ c ∈ l := by
  rcases mem_joinSpace _ h with h1 | ⟨w, hw, hc⟩
  · exact Or.inl h1
  · rcases pySplitWsAux_mem_chars l [] w hw c hc with h2 | h2
    · exact Or.inr h2
    · simp at h2

theorem collapseWs_collapseWs (l : List Char) :
    collapseWs (collapseWs l) = collapseWs l := by
  show joinSpace (pySplitWs (joinSpace (pySplitWs l))) = _
  rw [pySplitWs_joinSpace _ (pySplitWs_words_ok l)]
  rfl

/-- The character pipeline of `normalize_text` at level 0, before whitespace
collapsing: diacritic filter, quote filter, punctuation-to-space map. -/
def normalizeZeroCore (s : String) : List Char :=
  ((s.data.filter (fun c => ¬ isHebDiacritic c)).filter
      (fun c => ¬ isQuoteGlyph c)).map
    (fun c => if isPunct c then ' ' else c)

/-- Closed form of `normalize_text` at level 0. -/
theorem normalize_text_zero_eq (s : String) (hs : s ≠ "") :
    normalize_text s 0 = String.mk (pyStripList (collapseWs (normalizeZeroCore s))) := by
  rw [normalize_text, if_neg hs, normalizeZeroCore]
  norm_num

theorem normalize_text_zero_data (s : String) (hs : s ≠ "") :
    (normalize_text s 0).data = collapseWs (normalizeZeroCore s) := by
  rw [normalize_text_zero_eq s hs]
  exact collapseWs_pyStrip _

/-- A character free of the three classes that level-0 normalization
removes or rewrites. -/
def cleanChar (c : Char) : Prop :=
  isHebDiacritic c = false ∧ isQuoteGlyph c = false ∧ isPunct c = false

theorem normalize_text_zero_chars (s : String) (hs : s ≠ "") :
    ∀ c ∈ (normalize_text s 0).data, cleanChar c := by
  intro c hc
  rw [normalize_text_zero_data s hs] at hc
  rcases mem_of_mem_collapseWs hc with rfl | hc2
  · exact ⟨by decide, by decide, by decide⟩
  · rcases List.mem_map.mp hc2 with ⟨a, ha, rfl⟩
    rcases List.mem_filter.mp ha with ⟨ha1, ha2⟩
    rcases List.mem_filter.mp ha1 with ⟨_, ha3⟩
    by_cases hp : isPunct a
    · rw [if_pos hp]
      exact ⟨by decide, by decide, by decide⟩
    · refine ⟨?_, ?_, ?_⟩
      · rw [if_neg hp]
        simpa using ha3
      · rw [if_neg hp]
        simpa using ha2
      · rw [if_neg hp]
        simpa using hp

theorem normalize_text_idempotent_zero (s : String) :
    normalize_text (normalize_text s 0) 0 = normalize_text s 0 := by
  by_cases hs : s = ""
  · subst hs; rfl
  by_cases hD : normalize_text s 0 = ""
  · rw [hD]; rfl
  have hclean := normalize_text_zero_chars s hs
  rw [normalize_text_zero_eq _ hD]
  have h1 : (normalize_text s 0).data.filter (fun c => ¬ isHebDiacritic c) =
      (normalize_text s 0).data :=
    List.filter_eq_self.mpr (fun a ha => by simp [(hclean a ha).1])
  have h2 : (normalize_text s 0).data.filter (fun c => ¬ isQuoteGlyph c) =
      (normalize_text s 0).data :=
    List.filter_eq_self.mpr (fun a ha => by simp [(hclean a ha).2.1])
  have h3 : (normalize_text s 0).data.map (fun c => if isPunct c then ' ' else c) =
      (normalize_text s 0).data := by
    have hm := List.map_congr_left (l := (normalize_text s 0).data)
      (f := fun c => if isPunct c then ' ' else c) (g := id)
      (fun a ha => if_neg (by simp [(hclean a ha).2.2]))
    rw [hm]
    exact List.map_id _
  have hcore : normalizeZeroCore (normalize_text s 0) = (normalize_text s 0).data := by
    rw [normalizeZeroCore, h1, h2, h3]
  rw [hcore, normalize_text_zero_data s hs, collapseWs_collapseWs]
  exact (normalize_text_zero_eq s hs).symm

/-! ## Structural lemmas on the mareh-makom candidates -/

theorem mara_candidates_mem {abbrs : List (String × String)} {qws : List String}
    {maamarim : List (String × Maamar)} {r : Candidate}
    (h : r ∈ mara_makom_candidates abbrs qws maamarim) :
    ∃ km ∈ maamarim, r.key = km.1 ∧
      r.words_found = maraOverlap abbrs qws km.2 ∧
      1 ≤ r.words_found ∧ r.total_words = qws.length ∧
      r.words_found ≤ qws.length ∧
      (r.score : ℤ) = (((r.words_found * 100) / r.total_words : ℕ) : ℤ) := by
  rcases List.mem_filterMap.mp h with ⟨km, hkm, hsome⟩
  rw [maraCandidateOf] at hsome
  by_cases hname : km.2.name = ""
  · rw [if_pos hname] at hsome
    simp at hsome
  rw [if_neg hname] at hsome
  simp only at hsome
  by_cases hwf : maraOverlap abbrs qws km.2 = 0
  · rw [if_pos hwf] at hsome
    simp at hsome
  rw [if_neg hwf] at hsome
  have hle : maraOverlap abbrs qws km.2 ≤ qws.length := List.countP_le_length _
  have hqne : qws.length ≠ 0 := by
    intro h0
    exact hwf (Nat.le_zero.mp (h0 ▸ hle))
  rcases hsome with ⟨rfl⟩
  refine ⟨km, hkm, rfl, rfl, Nat.one_le_iff_ne_zero.mpr hwf, rfl, hle, ?_⟩
  show (if qws.length ≠ 0 then
      pyIntQ ((maraOverlap abbrs qws km.2 : ℚ) / (qws.length : ℚ) * 100) else 0) = _
  rw [if_pos hqne]
  have h100 := pyIntQ_natCast_div_mul (maraOverlap abbrs qws km.2) qws.length 100
  rw [show ((100 : ℕ) : ℚ) = (100 : ℚ) by norm_num] at h100
  rw [h100]

theorem mara_candidates_of_overlap {abbrs : List (String × String)}
    {qws : List String} {maamarim : List (String × Maamar)}
    {km : String × Maamar} (hkm : km ∈ maamarim) (hname : km.2.name ≠ "")
    (hov : 1 ≤ maraOverlap abbrs qws km.2) :
    ∃ r ∈ mara_makom_candidates abbrs qws maamarim,
      r.key = km.1 ∧ r.words_found = maraOverlap abbrs qws km.2 := by
  have hwf : maraOverlap abbrs qws km.2 ≠ 0 := Nat.one_le_iff_ne_zero.mp hov
  rcases hC : maraCandidateOf abbrs qws km.1 km.2 with _ | r
  · rw [maraCandidateOf, if_neg hname] at hC
    simp only [if_neg hwf] at hC
    cases hC
  · refine ⟨r, List.mem_filterMap.mpr ⟨km, hkm, hC⟩, ?_⟩
    rw [maraCandidateOf, if_neg hname] at hC
    simp only [if_neg hwf] at hC
    cases hC
    exact ⟨rfl, rfl⟩

theorem mem_of_mem_mara_search {abbrs : List (String × String)} {name : String}
    {maamarim : List (String × Maamar)} {top_n : ℕ} {r : Candidate}
    (h : r ∈ mara_makom_word_match_search abbrs name maamarim top_n) :
    r ∈ mara_makom_candidates abbrs (maraQueryWords abbrs name) maamarim := by
  rw [mara_makom_word_match_search] at h
  by_cases h1 : name = ""
  · rw [if_pos h1] at h
    simp at h
  rw [if_neg h1] at h
  by_cases h2 : (maraQueryWords abbrs name).isEmpty
  · rw [if_pos h2] at h
    simp at h
  rw [if_neg h2] at h
  exact (pySortDescBy_perm maraSortKey _).subset (List.mem_of_mem_take h)

/-! ## Claim theorems -/

/-- A minimal corpus record used by the concrete evaluations below. -/
def testRec (n : String) : Maamar :=
  { name := n, year := "", filename := "f", text := "", keywords_all := [],
    keywords_all_normalized := [], embedding := none }

/-- **C5, counterexample.** Normalization is *not* idempotent at level 1:
the vav-elision is a single non-overlapping left-to-right pass, so
`normalize("אווא", 1) = "אוא"` still contains an elidable vav and a second
application yields `"אא"`. -/
theorem C5_counterexample :
    normalize_text (normalize_text "אווא" 1) 1 ≠ normalize_text "אווא" 1 := by
  decide

/-- **C5, amended.** Normalization is idempotent at level 0:
`normalize(normalize(x, 0), 0) = normalize(x, 0)` for every string; at
levels 1–3 the single-pass internal-letter elision can expose new
letter-vowel-letter triples, so idempotence fails there. -/
theorem C5_normalize_idempotent_level0 (s : String) :
    normalize_text (normalize_text s 0) 0 = normalize_text s 0 :=
  normalize_text_idempotent_zero s

/-- **C3, counterexample.** The mareh-makom score truncates the percentage
instead of rounding it: on a three-word query matching two words the code
returns `int(2/3*100) = 66`, while `round(2/3*100) = 67`. -/
theorem C3_counterexample :
    ((mara_makom_word_match_search [] "a b c" [("k", testRec "a b")] 10).map
        (fun r => (r.words_found, r.total_words, r.score))) = [(2, 3, 66)] ∧
      round ((2 : ℚ) / 3 * 100) = 67 := by
  refine ⟨by decide, ?_⟩
  norm_num [round_eq]

/-- **C3, amended.** In mareh-makom word-set mode every candidate's
`wordsFound` is the order-independent count of normalized query words found
in the record's normalized name word set, records with zero overlap are
excluded, and `score = int(wordsFound / totalWords * 100)` — the *truncated*
percentage `⌊wordsFound·100/totalWords⌋`, not the rounded one. -/
theorem C3_mara_score_truncated (abbrs : List (String × String)) (name : String)
    (maamarim : List (String × Maamar)) (top_n : ℕ) :
    (∀ r ∈ mara_makom_word_match_search abbrs name maamarim top_n,
        1 ≤ r.words_found ∧ r.total_words = (maraQueryWords abbrs name).length ∧
        (r.score : ℤ) = (((r.words_found * 100) / r.total_words : ℕ) : ℤ)) ∧
    (∀ km ∈ maamarim, km.2.name ≠ "" →
        1 ≤ maraOverlap abbrs (maraQueryWords abbrs name) km.2 →
        ∃ r ∈ mara_makom_candidates abbrs (maraQueryWords abbrs name) maamarim,
          r.key = km.1 ∧
          r.words_found = maraOverlap abbrs (maraQueryWords abbrs name) km.2) := by
  constructor
  · intro r hr
    rcases mara_candidates_mem (mem_of_mem_mara_search hr) with
      ⟨km, _, _, _, h1, h2, _, h4⟩
    exact ⟨h1, h2, h4⟩
  · intro km hkm hname hov
    exact mara_candidates_of_overlap hkm hname hov

/-- Witness for `C3_mara_score_truncated` at a concrete corpus. -/
theorem C3_mara_score_truncated_witness :
    ∃ r ∈ mara_makom_candidates [] (maraQueryWords [] "a b c")
        [("k", testRec "a b")],
      r.key = "k" ∧
      r.words_found = maraOverlap [] (maraQueryWords [] "a b c") (testRec "a b") :=
  (C3_mara_score_truncated [] "a b c" [("k", testRec "a b")] 10).2
    ("k", testRec "a b") (by decide) (by decide) (by decide)

/-- **C6, code defect.** On a query word that misses levels 0 and 1 but hits
at level 2, `fuzzy_search_name` applies a penalty of **5**, not the
cumulative 10 announced by its own inline comment and by the claim: the word
`אויב` (levels: `אויב`/`איב`/`אב`) against the name `אב` matches only at
level 2 with penalty 5, so the two-word query `אויב צר` scores
`50 + 5 − 5 = 50` where the claimed cumulative-10 penalty would give 45. -/
theorem C6_fuzzy_level2_penalty_is_five :
    fuzzyWordMatch "אויב" "איב" "אב" ["אב"] ["אב"] ["אב"] = some (0, 5) ∧
      (fuzzy_search_name [] "אויב צר" [("k", testRec "אב")] 10).map
        (fun r => r.score) = [50] := by
  decide

theorem pyIntQ_bonus_eq (ks : ℤ) (h : 0 ≤ ks) :
    pyIntQ ((ks : ℚ) / 100 * 20) = (ks * 20) / 100 := by
  have hq : (ks : ℚ) / 100 * 20 = ((ks * 20 : ℤ) : ℚ) / ((100 : ℕ) : ℚ) := by
    push_cast
    ring
  have h0 : (0 : ℚ) ≤ (ks : ℚ) / 100 * 20 := by positivity
  rw [pyIntQ_eq_floor h0, hq, Rat.floor_intCast_div_natCast]
  norm_num

/-- The test candidate for the keyword-rescoring counterexample: fuzzy
signal present (score 70), curated keyword list containing one of the three
extracted keywords, empty body text. -/
def c7cand : Candidate :=
  { key := "k", name := "n", year := "", filename := "f", text := "",
    keywords_all := ["k1"], keywords_all_normalized := [], embedding := none,
    score := 70, fuzzy_score := 70, keyword_score := 0, semantic_score := 0,
    words_found := 0, total_words := 0,
    matched_keywords := [], matched_keyword_counts := [] }

/-- **C7, counterexample.** The keyword bonus truncates instead of rounding:
with three extracted keywords of which one matches, `keywordScore = 33` and
the code adds `int(33/100*20) = 6` (score 70 → 76), while the claim's
`round(33*0.2) = 7` would give 77. -/
theorem C7_counterexample :
    ((keyword_search [] (some ["k1", "k2", "k3"]) "q" [c7cand]).1.map
        (fun c => (c.score, c.keyword_score))) = [(76, 33)] ∧
      min 100 (70 + round ((33 : ℚ) * (2 / 10))) = (77 : ℤ) := by
  refine ⟨by decide, ?_⟩
  norm_num [round_eq]

/-- **C7, amended.** In keyword reranking a candidate is rescored only when
at least one keyword matched; a candidate that entered with flat score 50
and no fuzzy signal has its score replaced outright by `keywordScore`, and
otherwise the score becomes `min(100, score + int(keywordScore/100*20))` —
a *truncated* (floored) bonus of at most 20, not a rounded one. -/
theorem C7_keyword_rescore (aliases : List (String × List String))
    (dedupOpt : Option (List String)) (qwl : List String) (c : Candidate) :
    ((keywordMatchInfo aliases dedupOpt qwl c).1 ≠ [] →
      (keywordProcessOne aliases dedupOpt qwl c).1.score =
        keywordScoreUpdate c.score c.fuzzy_score
          (keywordMatchInfo aliases dedupOpt qwl c).2.2 ∧
      (keywordProcessOne aliases dedupOpt qwl c).1.keyword_score =
        (keywordMatchInfo aliases dedupOpt qwl c).2.2) ∧
    ((keywordMatchInfo aliases dedupOpt qwl c).1 = [] →
      (keywordProcessOne aliases dedupOpt qwl c).1 = c) ∧
    (∀ s f ks : ℤ, 0 ≤ ks →
      keywordScoreUpdate s f ks =
        if f = 0 ∧ s = 50 then ks else min 100 (s + (ks * 20) / 100)) := by
  refine ⟨?_, ?_, ?_⟩
  · intro hne
    rw [keywordProcessOne]
    rw [if_pos (by simp [List.isEmpty_iff, hne])]
    cases dedupOpt with
    | none => exact ⟨rfl, rfl⟩
    | some dedup => exact ⟨rfl, rfl⟩
  · intro hemp
    rw [keywordProcessOne]
    rw [if_neg (by simp [List.isEmpty_iff, hemp])]
  · intro s f ks hks
    rw [keywordScoreUpdate, pyIntQ_bonus_eq ks hks]

/-- Witness for `C7_keyword_rescore` at the counterexample candidate. -/
theorem C7_keyword_rescore_witness :
    (keywordProcessOne [] (some ["k1", "k2", "k3"]) [] c7cand).1.score =
        keywordScoreUpdate c7cand.score c7cand.fuzzy_score
          (keywordMatchInfo [] (some ["k1", "k2", "k3"]) [] c7cand).2.2 ∧
      keywordScoreUpdate 70 70 33 = if (70 : ℤ) = 0 ∧ (70 : ℤ) = 50 then 33
        else min 100 (70 + (33 * 20) / 100) :=
  ⟨((C7_keyword_rescore [] (some ["k1", "k2", "k3"]) [] c7cand).1
      (by decide)).1,
    (C7_keyword_rescore [] (some ["k1", "k2", "k3"]) [] c7cand).2.2 70 70 33
      (by decide)⟩

theorem keywordRatioScore_nonneg (f t : ℕ) : 0 ≤ keywordRatioScore f t :=
  pyIntQ_nonneg (by positivity)

theorem keywordRatioScore_le_100 (f t : ℕ) (h : f ≤ t) :
    keywordRatioScore f t ≤ 100 := by
  apply pyIntQ_le_of_le (by positivity)
  by_cases ht : t = 0
  · subst ht
    norm_num
  · have ht0 : (0 : ℚ) < (t : ℚ) := by positivity
    have h1 : (f : ℚ) / (t : ℚ) ≤ 1 := by
      rw [div_le_one ht0]
      exact_mod_cast h
    calc (f : ℚ) / (t : ℚ) * 100 ≤ 1 * 100 := by nlinarith
      _ = ((100 : ℤ) : ℚ) := by norm_num

/-! ## Score bounds (claim C9) -/

theorem aiFoundPhrases_subset (c : Candidate) (dedup : List String) :
    aiFoundPhrases c dedup ⊆ dedup :=
  fun _ ha =>
    (List.filter_sublist _).subset ((List.dedup_sublist _).subset ha)

theorem keywordMatchPhase_sub_ai (dedup qwl : List String) (c : Candidate) :
    (keywordMatchPhase (some dedup) qwl c).1 ⊆ dedup := by
  rw [keywordMatchPhase]
  by_cases hk : ¬ c.keywords_all.isEmpty
  · rw [if_pos hk]
    exact aiFoundPhrases_subset c dedup
  · rw [if_neg hk]
    exact List.nil_subset _

theorem keywordRatioScore_bound_of_le {f t : ℕ} (h : f ≤ t) :
    0 ≤ keywordRatioScore f t ∧ keywordRatioScore f t ≤ 100 :=
  ⟨keywordRatioScore_nonneg f t, keywordRatioScore_le_100 f t h⟩

theorem keywordMatchPhase_score_bound (dedupOpt : Option (List String))
    (qwl : List String) (c : Candidate) :
    0 ≤ (keywordMatchPhase dedupOpt qwl c).2 ∧
      (keywordMatchPhase dedupOpt qwl c).2 ≤ 100 := by
  cases dedupOpt with
  | some dedup =>
    rw [keywordMatchPhase]
    by_cases hk : ¬ c.keywords_all.isEmpty
    · rw [if_pos hk]
      dsimp only
      by_cases hf : ¬ (aiFoundPhrases c dedup).isEmpty
      · rw [if_pos hf]
        refine keywordRatioScore_bound_of_le ?_
        have hle : (aiFoundPhrases c dedup).length ≤ dedup.length :=
          ((List.dedup_sublist _).trans (List.filter_sublist _)).length_le
        rw [aiTotalOf]
        by_cases hz : dedup.length = 0
        · exfalso
          apply hf
          rw [List.isEmpty_iff, ← List.length_eq_zero]
          omega
        · rw [if_neg hz]
          exact hle
      · rw [if_neg hf]
        exact ⟨le_refl 0, by norm_num⟩
    · rw [if_neg hk]
      exact ⟨le_refl 0, by norm_num⟩
  | none =>
    rw [keywordMatchPhase]
    by_cases hk : ¬ c.keywords_all.isEmpty
    · rw [if_pos hk]
      dsimp only
      by_cases hm : ¬ (fallbackMatching c qwl).isEmpty
      · rw [if_pos hm]
        refine keywordRatioScore_bound_of_le ?_
        exact ((List.filter_sublist _).trans (List.dedup_sublist _)).length_le
      · rw [if_neg hm]
        exact ⟨le_refl 0, by norm_num⟩
    · rw [if_neg hk]
      exact ⟨le_refl 0, by norm_num⟩

theorem keywordMatchInfo_score_bound (aliases : List (String × List String))
    (dedupOpt : Option (List String)) (qwl : List String) (c : Candidate) :
    0 ≤ (keywordMatchInfo aliases dedupOpt qwl c).2.2 ∧
      (keywordMatchInfo aliases dedupOpt qwl c).2.2 ≤ 100 := by
  cases dedupOpt with
  | none =>
    rw [keywordMatchInfo]
    exact keywordMatchPhase_score_bound none qwl c
  | some dedup =>
    rw [keywordMatchInfo]
    dsimp only
    by_cases ht : c.text ≠ ""
    · rw [if_pos ht]
      dsimp only
      set m1 := (keywordMatchPhase (some dedup) qwl c).1 with hm1
      set fit := aiFoundInText aliases c dedup with hfit
      set mF := if ¬ fit.isEmpty then (m1 ++ fit).dedup else m1 with hmF
      by_cases hf : ¬ mF.isEmpty
      · rw [if_pos hf]
        refine keywordRatioScore_bound_of_le ?_
        have hsub : mF ⊆ dedup := by
          rw [hmF]
          by_cases hfe : ¬ fit.isEmpty
          · rw [if_pos hfe]
            intro a ha
            rcases List.mem_append.mp ((List.dedup_subset _) ha) with h1 | h1
            · exact keywordMatchPhase_sub_ai dedup qwl c h1
            · exact (List.filter_sublist _).subset h1
          · rw [if_neg hfe]
            exact keywordMatchPhase_sub_ai dedup qwl c
        have hnodup : mF.Nodup := by
          rw [hmF]
          by_cases hfe : ¬ fit.isEmpty
          · rw [if_pos hfe]
            exact List.nodup_dedup _
          · rw [if_neg hfe, hm1, keywordMatchPhase]
            by_cases hk : ¬ c.keywords_all.isEmpty
            · rw [if_pos hk]
              exact List.nodup_dedup _
            · rw [if_neg hk]
              exact List.nodup_nil
        have hle : mF.length ≤ dedup.length :=
          (hnodup.subperm hsub).length_le
        rw [aiTotalOf]
        by_cases hz : dedup.length = 0
        · exfalso
          apply hf
          rw [List.isEmpty_iff, ← List.length_eq_zero]
          omega
        · rw [if_neg hz]
          exact hle
      · rw [if_neg hf]
        exact ⟨le_refl 0, by norm_num⟩
    · rw [if_neg ht]
      exact keywordMatchPhase_score_bound (some dedup) qwl c

theorem keywordProcessOne_score_bound (aliases : List (String × List String))
    (dedupOpt : Option (List String)) (qwl : List String) (c : Candidate)
    (h0 : 0 ≤ c.score) (h1 : c.score ≤ 100) :
    0 ≤ (keywordProcessOne aliases dedupOpt qwl c).1.score ∧
      (keywordProcessOne aliases dedupOpt qwl c).1.score ≤ 100 := by
  rw [keywordProcessOne]
  dsimp only
  by_cases hm : ¬ (keywordMatchInfo aliases dedupOpt qwl c).1.isEmpty
  · rw [if_pos hm]
    have hks := keywordMatchInfo_score_bound aliases dedupOpt qwl c
    have hup : 0 ≤ keywordScoreUpdate c.score c.fuzzy_score
          (keywordMatchInfo aliases dedupOpt qwl c).2.2 ∧
        keywordScoreUpdate c.score c.fuzzy_score
          (keywordMatchInfo aliases dedupOpt qwl c).2.2 ≤ 100 := by
      rw [keywordScoreUpdate]
      by_cases hflat : c.fuzzy_score = 0 ∧ c.score = 50
      · rw [if_pos hflat]
        exact hks
      · rw [if_neg hflat]
        constructor
        · refine le_min (by norm_num) ?_
          have hb : 0 ≤ pyIntQ (((keywordMatchInfo aliases dedupOpt qwl c).2.2 : ℚ)
              / 100 * 20) := by
            refine pyIntQ_nonneg ?_
            have : (0 : ℚ) ≤ ((keywordMatchInfo aliases dedupOpt qwl c).2.2 : ℚ) := by
              exact_mod_cast hks.1
            positivity
          omega
        · exact min_le_left _ _
    cases dedupOpt with
    | none => exact hup
    | some dedup => exact hup
  · rw [if_neg hm]
    exact ⟨h0, h1⟩

theorem semanticBlendOne_score_bound (qe : List ℚ) (c : Candidate)
    (h0 : 0 ≤ c.score) (h1 : c.score ≤ 100)
    (hs0 : 0 ≤ cosine_similarity qe (c.embedding.getD []))
    (hs1 : cosine_similarity qe (c.embedding.getD []) ≤ 1) :
    0 ≤ (semanticBlendOne qe c).score ∧ (semanticBlendOne qe c).score ≤ 100 := by
  rw [semanticBlendOne]
  dsimp only
  set sim := cosine_similarity qe (c.embedding.getD []) with hsim
  have hsem0 : 0 ≤ pyIntQ (sim * 100) := pyIntQ_nonneg (by positivity)
  have hsem1 : pyIntQ (sim * 100) ≤ 100 := by
    refine pyIntQ_le_of_le (by positivity) ?_
    calc sim * 100 ≤ 1 * 100 := by nlinarith
      _ = ((100 : ℤ) : ℚ) := by norm_num
  constructor
  · refine pyIntQ_nonneg ?_
    have hc : (0 : ℚ) ≤ (c.score : ℚ) := by exact_mod_cast h0
    have hsq : (0 : ℚ) ≤ (pyIntQ (sim * 100) : ℚ) := by exact_mod_cast hsem0
    positivity
  · refine pyIntQ_le_of_le ?_ ?_
    · have hc : (0 : ℚ) ≤ (c.score : ℚ) := by exact_mod_cast h0
      have hsq : (0 : ℚ) ≤ (pyIntQ (sim * 100) : ℚ) := by exact_mod_cast hsem0
      positivity
    · have hc : (c.score : ℚ) ≤ 100 := by exact_mod_cast h1
      have hsq : (pyIntQ (sim * 100) : ℚ) ≤ 100 := by exact_mod_cast hsem1
      have hc0 : (0 : ℚ) ≤ (c.score : ℚ) := by exact_mod_cast h0
      have hsq0 : (0 : ℚ) ≤ (pyIntQ (sim * 100) : ℚ) := by exact_mod_cast hsem0
      have : (c.score : ℚ) * (7 / 10) + (pyIntQ (sim * 100) : ℚ) * (3 / 10) ≤ 100 := by
        nlinarith
      calc (c.score : ℚ) * (7 / 10) + (pyIntQ (sim * 100) : ℚ) * (3 / 10)
          ≤ 100 := this
        _ = ((100 : ℤ) : ℚ) := by norm_num

/-- The candidate of the C9 counterexample: general-question flow
(score 50, no fuzzy signal), one of three extracted keywords matched,
embedding `[3, 4]`. -/
def c9cand : Candidate :=
  { key := "k", name := "n", year := "", filename := "f", text := "",
    keywords_all := ["k1"], keywords_all_normalized := [],
    embedding := some [3, 4],
    score := 50, fuzzy_score := 0, keyword_score := 0, semantic_score := 0,
    words_found := 0, total_words := 0,
    matched_keywords := [], matched_keyword_counts := [] }

/-- **C9, counterexample.** The score invariant `0 ≤ score ≤ 100` is broken
by semantic blending when the cosine similarity is negative: keyword
reranking leaves the candidate at score 33, the question embedding
`[-3, -4]` against the stored embedding `[3, 4]` has cosine −1, so
`semantic_score = −100` and `score = int(33·0.7 − 100·0.3) = −6 < 0`. -/
theorem C9_counterexample :
    ((semantic_search true (some [-3, -4]) "q"
        (keyword_search [] (some ["k1", "k2", "k3"]) "q" [c9cand]).1).map
      (fun c => (c.score, c.semantic_score))) = [(-6, -100)] ∧
      ((-6 : ℤ) < 0) := by
  exact ⟨by decide, by decide⟩

/-- **C9, amended.** Candidate scores stay integers in `[0, 100]` through
keyword reranking, and semantic blending preserves the bounds **only when
the cosine similarity is non-negative** (a negative similarity can push the
blended score below 0, as the counterexample shows). -/
theorem C9_score_bounds (aliases : List (String × List String))
    (dedupOpt : Option (List String)) (qwl : List String) (qe : List ℚ)
    (c : Candidate) (h0 : 0 ≤ c.score) (h1 : c.score ≤ 100)
    (hs0 : 0 ≤ cosine_similarity qe (c.embedding.getD []))
    (hs1 : cosine_similarity qe (c.embedding.getD []) ≤ 1) :
    (0 ≤ (keywordProcessOne aliases dedupOpt qwl c).1.score ∧
      (keywordProcessOne aliases dedupOpt qwl c).1.score ≤ 100) ∧
    (0 ≤ (semanticBlendOne qe c).score ∧ (semanticBlendOne qe c).score ≤ 100) :=
  ⟨keywordProcessOne_score_bound aliases dedupOpt qwl c h0 h1,
    semanticBlendOne_score_bound qe c h0 h1 hs0 hs1⟩

/-- Witness for `C9_score_bounds` at a concrete candidate (embedding
`[3, 4]`, question embedding `[3, 4]`, cosine 1). -/
theorem C9_score_bounds_witness :
    (0 ≤ (keywordProcessOne [] (some ["k1", "k2", "k3"]) [] c9cand).1.score ∧
      (keywordProcessOne [] (some ["k1", "k2", "k3"]) [] c9cand).1.score ≤ 100) ∧
    (0 ≤ (semanticBlendOne [3, 4] c9cand).score ∧
      (semanticBlendOne [3, 4] c9cand).score ≤ 100) :=
  C9_score_bounds [] (some ["k1", "k2", "k3"]) [] [3, 4] c9cand
    (by decide) (by decide) (by decide) (by decide)

/-- Appending a fresh binding makes it visible to `lookup`. -/
theorem lookup_append_singleton {β : Type} (k : String) (v : β) :
    ∀ l : List (String × β), l.lookup k = none → (l ++ [(k, v)]).lookup k = some v := by
  intro l
  induction l with
  | nil =>
    intro _
    simp [List.lookup]
  | cons p t ih =>
    intro hmiss
    rw [List.lookup] at hmiss
    rw [List.cons_append, List.lookup]
    cases hbeq : k == p.1 with
    | true =>
      rw [hbeq] at hmiss
      simp at hmiss
    | false =>
      rw [hbeq] at hmiss
      exact ih hmiss

/-- A cache miss turns `dictSet` into an append, so the written entry is
found by the next lookup. -/
theorem lookup_dictSet_of_miss {β : Type} (cache : List (String × β))
    (k : String) (v : β) (hmiss : cache.lookup k = none) :
    (dictSet cache k v).lookup k = some v := by
  rw [dictSet, if_neg (by rw [hmiss]; simp)]
  exact lookup_append_singleton k v cache hmiss

/-- The failure outcomes of the external keyword-extraction call. -/
def KimiOutcome.isFailure : KimiOutcome → Bool
  | KimiOutcome.success _ => false
  | _ => true

/-- **C10.** On a cache miss, `extract_keywords_from_question` writes a
cache entry only when the external call succeeds (including the explicit
`אין` empty answer): every failure outcome returns the failure signal
(`None`) with the cache unchanged — so a later call with the same question
behaves exactly as a fresh one — while a success stores the parsed keyword
list under the stripped question. -/
theorem C10_extraction_cache_on_success_only (outcome : KimiOutcome)
    (cache : List (String × List String)) (question : String)
    (hmiss : cache.lookup (pyStrip question) = none)
    (hq : pyStrip question ≠ "") :
    (outcome.isFailure →
      extract_keywords_from_question outcome cache question = (none, cache)) ∧
    (outcome.isFailure → ∀ o2 : KimiOutcome,
      extract_keywords_from_question o2
          (extract_keywords_from_question outcome cache question).2 question =
        extract_keywords_from_question o2 cache question) ∧
    (∀ ans, ∃ kws : List String,
      extract_keywords_from_question (KimiOutcome.success ans) cache question =
        (some kws, dictSet cache (pyStrip question) kws) ∧
      (dictSet cache (pyStrip question) kws).lookup (pyStrip question) = some kws) := by
  have hcase : (if pyStrip question ≠ "" then cache.lookup (pyStrip question)
      else none) = none := by
    rw [if_pos hq, hmiss]
  have hfail : outcome.isFailure →
      extract_keywords_from_question outcome cache question = (none, cache) := by
    intro hf
    cases outcome with
    | noRequests => rw [extract_keywords_from_question, hcase]
    | noApiKey => rw [extract_keywords_from_question, hcase]
    | httpFailure => rw [extract_keywords_from_question, hcase]
    | transportError => rw [extract_keywords_from_question, hcase]
    | success ans => simp [KimiOutcome.isFailure] at hf
  refine ⟨hfail, ?_, ?_⟩
  · intro hf o2
    rw [hfail hf]
  · intro ans
    by_cases hayn : pyLower ans = "אין"
    · refine ⟨[], ?_, lookup_dictSet_of_miss cache _ [] hmiss⟩
      rw [extract_keywords_from_question, hcase, if_pos hayn]
    · refine ⟨parseKeywordsAnswer ans, ?_, lookup_dictSet_of_miss cache _ _ hmiss⟩
      rw [extract_keywords_from_question, hcase, if_neg hayn, if_pos hq]

/-- Witness for `C10_extraction_cache_on_success_only` at a concrete cache
and question. -/
theorem C10_extraction_cache_witness :
    extract_keywords_from_question KimiOutcome.httpFailure [("x", ["y"])] "ש" =
        (none, [("x", ["y"])]) ∧
      ∃ kws : List String,
        extract_keywords_from_question (KimiOutcome.success "דוד") [("x", ["y"])] "ש" =
          (some kws, dictSet [("x", ["y"])] (pyStrip "ש") kws) ∧
        (dictSet [("x", ["y"])] (pyStrip "ש") kws).lookup (pyStrip "ש") = some kws := by
  have h := C10_extraction_cache_on_success_only KimiOutcome.httpFailure
    [("x", ["y"])] "ש" (by decide) (by decide)
  exact ⟨h.1 (by decide), h.2.2 "דוד"⟩

/-! ## Claim C2 : quoted queries and exact title mode -/

/-- A `SearchEnv` with empty tables, no extracted keywords, semantic search
disabled and no question embedding: the environment of a bare title query. -/
def testEnv : SearchEnv :=
  { abbreviations := [], keyword_aliases := [], aiKeywords := none,
    semanticEnabled := false, questionEmbedding := none }

/-- **C2, code defect.** A quoted title query does **not** run exact title
mode: `search_maamar` strips the quotes and sets the `exact_match_only`
flag, but no later line reads the flag, so the de-quoted title flows into
the ordinary mareh-makom word-set branch. On the corpus `[("k1", "ab cd")]`
the quoted query `"ab xy"` has no whole-word-bounded exact match
(`exact_search_name` returns nothing), yet `search_maamar` returns the
record `k1` with word-overlap score 50 — not the exact-mode score 100. -/
theorem C2_quoted_query_not_exact :
    ((search_maamar testEnv [("k1", testRec "ab cd")]
        "\"ab xy\"" "" "" 5 0 true).map (fun c => (c.key, c.score)))
      = [("k1", 50)] ∧
    exact_search_name "ab xy" [("k1", testRec "ab cd")] 10 = [] := by
  decide

/-! ## Claim C4 : the `min_score` floor -/

/-- Membership in a Python slice `l[:n]` implies membership in `l`. -/
theorem mem_of_mem_pySliceTo {α : Type} {n : ℤ} {l : List α} {a : α}
    (h : a ∈ pySliceTo n l) : a ∈ l := by
  rw [pySliceTo] at h
  by_cases h0 : 0 ≤ n
  · rw [if_pos h0] at h
    exact List.mem_of_mem_take h
  · rw [if_neg h0] at h
    exact List.mem_of_mem_take h

/-- **C4, counterexample.** The `min_score` floor is **not** applied in
every branch: the title-present branch never consults `min_score`. With
`min_score = 80`, the title query `"a b"` against the corpus
`[("k1", "a c")]` returns the record with score 50 < 80. -/
theorem C4_counterexample :
    ((search_maamar testEnv [("k1", testRec "a c")]
        "a b" "" "" 5 80 true).map (fun c => (c.key, c.score)))
      = [("k1", 50)] ∧
    ¬ ((80 : ℤ) ≤ 50) := by
  decide

/-- **C4, amended.** The `min_score` floor does hold in the year-only
branch: whenever `min_score > 0`, every candidate returned by
`search_year_branch` has `score ≥ min_score` (the branch filters on the
floor before slicing). The title-present and question-only branches apply
no floor. -/
theorem C4_year_branch_min_score (env : SearchEnv)
    (maamarim : List (String × Maamar)) (year_normalized question : String)
    (max_results min_score : ℤ) (use_semantic : Bool)
    (hpos : 0 < min_score) (r : Candidate)
    (hr : r ∈ search_year_branch env maamarim year_normalized question
      max_results min_score use_semantic) :
    min_score ≤ r.score := by
  simp only [search_year_branch] at hr
  rw [if_pos hpos] at hr
  have hr2 := mem_of_mem_pySliceTo hr
  exact of_decide_eq_true (List.mem_filter.mp hr2).2

/-- A corpus record with a name and a year. -/
def testRecY (n y : String) : Maamar :=
  { name := n, year := y, filename := "f", text := "", keywords_all := [],
    keywords_all_normalized := [], embedding := none }

/-- Witness for `C4_year_branch_min_score`: the year-only branch at
`min_score = 50` on a matching record, whose returned candidate scores
100 ≥ 50. -/
theorem C4_year_branch_min_score_witness :
    (50 : ℤ) ≤ (yearCandidateOf "k1" (testRecY "a" "x")).score :=
  C4_year_branch_min_score testEnv [("k1", testRecY "a" "x")] (norm_year "x")
    "" 5 50 false (by decide) _ (by decide)

/-! ## Claim C8 : the non-perfect truncation limit -/

/-- A four-record corpus in which the two-word query `"a b"` finds exactly
one of its words in every record. -/
def fourRecs : List (String × Maamar) :=
  [("k1", testRec "a w"), ("k2", testRec "a x"),
   ("k3", testRec "a y"), ("k4", testRec "a z")]

/-- **C8, counterexample.** With no perfect overlap the title branch
returns the first `max_results` candidates, **not** the first
`max(max_results, 3)`: the query `"a b"` over four half-overlap records
with `max_results = 2` leaves a pool of four imperfect candidates, yet
`search_maamar` returns 2 results, where `max(2, 3) = 3` were claimed. -/
theorem C8_counterexample :
    (title_pool testEnv fourRecs (title_clean_name "a b") "" 2).length = 4 ∧
    title_is_perfect (title_pool testEnv fourRecs (title_clean_name "a b") "" 2)
      = false ∧
    (search_maamar testEnv fourRecs "a b" "" "" 2 0 true).length = 2 ∧
    (2 : ℕ) ≠ max 2 3 := by
  decide

/-- The title re-sort is a permutation of its pool (it either leaves the
pool alone or stable-sorts it). -/
theorem title_resort_perm (env : SearchEnv) (question : String)
    (pool : List Candidate) : (title_resort env question pool).Perm pool := by
  rw [title_resort]
  by_cases h : question ≠ "" ∧ ¬ pool.isEmpty
  · rw [if_pos h]
    cases env.aiKeywords with
    | none => exact List.perm_insertionSort _ pool
    | some ks =>
      dsimp only
      by_cases hks : ¬ ks.isEmpty
      · rw [if_pos hks]
        exact List.perm_insertionSort _ pool
      · rw [if_neg hks]
        exact List.perm_insertionSort _ pool
  · rw [if_neg h]

/-- **C8, amended.** In the title branch with a positive `max_results`, a
nonempty pool with no perfect overlap, and at least `max_results`
candidates in the pool, the returned list is the first `max_results`
(not `max(max_results, 3)`) elements of the re-ranked pool, so exactly
`max_results` results come back. -/
theorem C8_nonperfect_take_limit (env : SearchEnv)
    (maamarim : List (String × Maamar))
    (maamar_name year_normalized question : String) (max_results : ℤ)
    (hm : 0 < max_results)
    (hnp : title_is_perfect (title_pool env maamarim
      (title_clean_name maamar_name) year_normalized max_results) = false)
    (hne : title_pool env maamarim (title_clean_name maamar_name)
      year_normalized max_results ≠ [])
    (hlen : max_results.toNat ≤ (title_pool env maamarim
      (title_clean_name maamar_name) year_normalized max_results).length) :
    title_branch env maamarim maamar_name year_normalized question max_results
      = (title_resort env question (title_pool env maamarim
          (title_clean_name maamar_name) year_normalized max_results)).take
          max_results.toNat ∧
    (title_branch env maamarim maamar_name year_normalized question
      max_results).length = max_results.toNat := by
  rcases hpool : title_pool env maamarim (title_clean_name maamar_name)
      year_normalized max_results with _ | ⟨r0, rest⟩
  · exact absurd hpool hne
  · rw [hpool] at hnp hlen
    have hbr : title_branch env maamarim maamar_name year_normalized question
        max_results = (title_resort env question (r0 :: rest)).take
          max_results.toNat := by
      simp only [title_branch, hpool, hnp, Bool.false_eq_true, if_false]
      rw [if_pos hm]
    have hlen2 : max_results.toNat ≤
        (title_resort env question (r0 :: rest)).length := by
      rw [(title_resort_perm env question (r0 :: rest)).length_eq]
      exact hlen
    constructor
    · exact hbr
    · rw [hbr, List.length_take]
      exact Nat.min_eq_left hlen2

/-- Witness for `C8_nonperfect_take_limit`: the four half-overlap records
under `max_results = 3` yield exactly the first three re-ranked
candidates. -/
theorem C8_nonperfect_take_limit_witness :
    title_branch testEnv fourRecs "a b" "" "" 3
      = (title_resort testEnv "" (title_pool testEnv fourRecs
          (title_clean_name "a b") "" 3)).take (3 : ℤ).toNat ∧
    (title_branch testEnv fourRecs "a b" "" "" 3).length = (3 : ℤ).toNat :=
  C8_nonperfect_take_limit testEnv fourRecs "a b" "" "" 3 (by decide)
    (by decide) (by decide) (by decide)

/-! ## Claim C1 : the perfect-match rule of the title branch -/

/-- The i-th key of a synthetic corpus. -/
def keyStr (i : ℕ) : String := "k" ++ toString i

/-- `n` distinct corpus keys counting down from `lo + n - 1` to `lo`. -/
def keysFrom : ℕ → ℕ → List String
  | _, 0 => []
  | lo, n+1 => keyStr (lo + n) :: keysFrom lo n

/-- A corpus of 1001 records, all named `"a"`, with pairwise distinct keys:
one more perfect match for the query `"a"` than the untruncated `top_n`
cap of 1000. -/
def bigCorpus : List (String × Maamar) :=
  (keysFrom 0 1001).map (fun k => (k, testRec "a"))

/-- The mareh-makom candidate that the query `"a"` produces for a record
named `"a"` under key `key` (full overlap, score 100). -/
def aRecCandidate (key : String) : Candidate :=
  { key := key, name := "a", filename := "f", text := "", year := "",
    keywords_all := [], keywords_all_normalized := [], embedding := none,
    score := 100, fuzzy_score := 100, keyword_score := 0, semantic_score := 0,
    words_found := 1, total_words := 1,
    matched_keywords := [], matched_keyword_counts := [] }

theorem maraCandidateOf_rec_a (k : String) :
    maraCandidateOf [] (maraQueryWords [] "a") k (testRec "a")
      = some (aRecCandidate k) := rfl

theorem keysFrom_length (n : ℕ) : ∀ lo, (keysFrom lo n).length = n := by
  induction n with
  | zero => intro lo; rfl
  | succ n ih => intro lo; simp only [keysFrom, List.length_cons, ih]

theorem keysFrom_take (n : ℕ) :
    ∀ lo, (keysFrom lo (n + 1)).take n = keysFrom (lo + 1) n := by
  induction n with
  | zero => intro lo; rfl
  | succ n ih =>
    intro lo
    show (keyStr (lo + (n + 1)) :: keysFrom lo (n + 1)).take (n + 1) = _
    rw [List.take_succ_cons, ih lo]
    show _ = keyStr (lo + 1 + n) :: keysFrom (lo + 1) n
    rw [show lo + (n + 1) = lo + 1 + n by omega]

theorem cands_allA (keys : List String) :
    mara_makom_candidates [] (maraQueryWords [] "a")
        (keys.map (fun k => (k, testRec "a")))
      = keys.map aRecCandidate := by
  induction keys with
  | nil => rfl
  | cons k t ih =>
    simp only [mara_makom_candidates, List.map_cons, List.filterMap_cons,
      maraCandidateOf_rec_a]
    simp only [mara_makom_candidates] at ih
    rw [ih]

/-- An insertion sort under a relation that holds between all pairs of
elements of the list leaves the list unchanged. -/
theorem insertionSort_eq_self {α : Type} (r : α → α → Prop) [DecidableRel r]
    (l : List α) (h : ∀ a ∈ l, ∀ b ∈ l, r a b) : List.insertionSort r l = l := by
  induction l with
  | nil => rfl
  | cons a t ih =>
    have ht : List.insertionSort r t = t :=
      ih (fun x hx y hy =>
        h x (List.mem_cons_of_mem _ hx) y (List.mem_cons_of_mem _ hy))
    show List.orderedInsert r a (List.insertionSort r t) = a :: t
    rw [ht]
    cases t with
    | nil => rfl
    | cons b t' =>
      show List.orderedInsert r a (b :: t') = a :: b :: t'
      rw [List.orderedInsert, if_pos (h a (List.mem_cons_self _ _) b
        (List.mem_cons_of_mem _ (List.mem_cons_self _ _)))]

theorem ranked_allA (keys : List String) :
    mara_makom_ranked [] (maraQueryWords [] "a")
        (keys.map (fun k => (k, testRec "a")))
      = keys.map aRecCandidate := by
  rw [mara_makom_ranked, cands_allA, pySortDescBy]
  apply insertionSort_eq_self
  intro a ha b hb
  rcases List.mem_map.mp ha with ⟨ka, _, rfl⟩
  rcases List.mem_map.mp hb with ⟨kb, _, rfl⟩
  exact le_of_eq rfl

theorem mm_search_big :
    mara_makom_word_match_search [] "a" bigCorpus 1000
      = (keysFrom 1 1000).map aRecCandidate := by
  rw [mara_makom_word_match_search]
  rw [if_neg (by decide), if_neg (by decide)]
  show (mara_makom_ranked [] (maraQueryWords [] "a") bigCorpus).take 1000 = _
  rw [bigCorpus, ranked_allA, ← List.map_take,
    show (1001 : ℕ) = 1000 + 1 from rfl, keysFrom_take]

theorem foldl_max_init_le (l : List ℕ) : ∀ a : ℕ, a ≤ l.foldl max a := by
  induction l with
  | nil => intro a; exact le_refl a
  | cons x t ih =>
    intro a
    exact le_trans (le_max_left a x) (ih (max a x))

theorem mem_le_foldl_max (l : List ℕ) :
    ∀ (a b : ℕ), b ∈ l → b ≤ l.foldl max a := by
  induction l with
  | nil => intro a b hb; cases hb
  | cons x t ih =>
    intro a b hb
    rcases List.mem_cons.mp hb with rfl | hb
    · exact le_trans (le_max_right a b) (foldl_max_init_le t (max a b))
    · exact ih (max a x) b hb

theorem pool_big :
    title_pool testEnv bigCorpus (title_clean_name "a") "" 0
      = (keysFrom 1 1000).map aRecCandidate := by
  rw [title_pool, show title_clean_name "a" = "a" from by decide,
    show testEnv.abbreviations = [] from rfl,
    show topNOf 0 = 1000 from rfl, mm_search_big, title_year_filter,
    if_neg (fun h => h.1 rfl)]

/-- With no question the title re-sort is the identity. -/
theorem resort_noq (env : SearchEnv) (pool : List Candidate) :
    title_resort env "" pool = pool := by
  rw [title_resort, if_neg (fun h => h.1 rfl)]

theorem keysFrom_map_cons (lo n : ℕ) :
    (keysFrom lo (n + 1)).map aRecCandidate
      = aRecCandidate (keyStr (lo + n)) :: (keysFrom lo n).map aRecCandidate :=
  rfl

theorem perfect_big :
    title_is_perfect ((keysFrom 1 1000).map aRecCandidate) = true := by
  rw [show (1000 : ℕ) = 999 + 1 from rfl, keysFrom_map_cons, title_is_perfect]
  apply decide_eq_true
  refine ⟨by decide, ?_⟩
  rw [title_max_words_found]
  exact mem_le_foldl_max _ 0 1 (List.mem_map.mpr
    ⟨aRecCandidate (keyStr (1 + 999)), List.mem_cons_self _ _, rfl⟩)

theorem title_big :
    title_branch testEnv bigCorpus "a" "" "" 0
      = (keysFrom 1 1000).map aRecCandidate := by
  simp only [title_branch, pool_big]
  rw [show (1000 : ℕ) = 999 + 1 from rfl, keysFrom_map_cons]
  dsimp only
  rw [show title_is_perfect (aRecCandidate (keyStr (1 + 999)) ::
      (keysFrom 1 999).map aRecCandidate) = true from
    (keysFrom_map_cons 1 999) ▸ perfect_big]
  rw [if_pos rfl, resort_noq, if_pos (le_refl (0 : ℤ))]
  rw [List.filter_eq_self.mpr]
  intro r hr
  rcases List.mem_map.mp ((keysFrom_map_cons 1 999) ▸ hr) with ⟨k, _, rfl⟩
  rfl

theorem search_big :
    search_maamar testEnv bigCorpus "a" "" "" 0 0 true
      = title_branch testEnv bigCorpus "a" "" "" 0 := by
  simp only [search_maamar]
  rw [if_neg (by decide), if_pos (by decide)]
  congr 1

/-- **C1, counterexample.** The perfect-match rule is **not** applied to
the full corpus: the pool handed to it is first capped at
`top_n = 2 * max_results` (or 1000 when `max_results ≤ 0`). On a corpus of
1001 records all named `"a"`, the title query `"a"` with
`max_results = 0` (the "return all of them" case) makes every record a
perfect overlap — the untruncated ranking holds 1001 perfect candidates —
yet `search_maamar` returns only 1000 of them: one perfect-overlap record
is silently dropped by the pre-filter cap. -/
theorem C1_counterexample :
    (search_maamar testEnv bigCorpus "a" "" "" 0 0 true).length = 1000 ∧
    ((mara_makom_ranked [] (maraQueryWords [] "a") bigCorpus).filter
        (fun r => r.total_words ≤ r.words_found)).length = 1001 ∧
    ¬ ((0 : ℤ) > 0) := by
  refine ⟨?_, ?_, by decide⟩
  · rw [search_big, title_big, List.length_map, keysFrom_length]
  · rw [bigCorpus, ranked_allA, List.filter_eq_self.mpr, List.length_map,
      keysFrom_length]
    intro r hr
    rcases List.mem_map.mp hr with ⟨k, _, rfl⟩
    rfl

/-- Ranking is a permutation, so membership in the ranked list is
membership among the candidates. -/
theorem mem_ranked_iff {abbrs : List (String × String)} {qws : List String}
    {maamarim : List (String × Maamar)} {r : Candidate} :
    r ∈ mara_makom_ranked abbrs qws maamarim ↔
      r ∈ mara_makom_candidates abbrs qws maamarim := by
  rw [mara_makom_ranked, pySortDescBy]
  exact (List.perm_insertionSort _ _).mem_iff

/-- **C1, amended.** The perfect-match rule holds on the *capped* pool:
when the ranked candidate list escapes the `top_n` cap
(`length ≤ topNOf max_results`), no year filter applies, and some
candidate has full word overlap, the title branch returns exactly the
perfect-overlap candidates of the re-ranked list — all of them when
`max_results ≤ 0` (then the result is a permutation of *every*
perfect-overlap record of the ranking), otherwise the first
`max_results` of them. -/
theorem C1_perfect_rule (env : SearchEnv) (maamarim : List (String × Maamar))
    (maamar_name question : String) (max_results : ℤ)
    (hname : title_clean_name maamar_name ≠ "")
    (hqws : ¬ (maraQueryWords env.abbreviations
      (title_clean_name maamar_name)).isEmpty)
    (hcap : (mara_makom_ranked env.abbreviations
        (maraQueryWords env.abbreviations (title_clean_name maamar_name))
        maamarim).length ≤ topNOf max_results)
    (c : Candidate)
    (hc : c ∈ mara_makom_ranked env.abbreviations
      (maraQueryWords env.abbreviations (title_clean_name maamar_name)) maamarim)
    (hcperf : c.total_words ≤ c.words_found) :
    title_branch env maamarim maamar_name "" question max_results
      = (if max_results ≤ 0 then
          (title_resort env question (mara_makom_ranked env.abbreviations
              (maraQueryWords env.abbreviations (title_clean_name maamar_name))
              maamarim)).filter (fun r => r.total_words ≤ r.words_found)
        else
          ((title_resort env question (mara_makom_ranked env.abbreviations
              (maraQueryWords env.abbreviations (title_clean_name maamar_name))
              maamarim)).filter (fun r => r.total_words ≤ r.words_found)).take
            max_results.toNat) ∧
    (max_results ≤ 0 →
      (title_branch env maamarim maamar_name "" question max_results).Perm
        ((mara_makom_ranked env.abbreviations
            (maraQueryWords env.abbreviations (title_clean_name maamar_name))
            maamarim).filter (fun r => r.total_words ≤ r.words_found))) := by
  set qws := maraQueryWords env.abbreviations (title_clean_name maamar_name)
    with hqwsdef
  set ranked := mara_makom_ranked env.abbreviations qws maamarim with hrankeddef
  have hqlen : qws.length ≠ 0 := by
    intro h0
    exact hqws (by rw [List.isEmpty_iff, ← List.length_eq_zero, h0])
  have hinv : ∀ r ∈ ranked, r.total_words = qws.length ∧
      r.words_found ≤ qws.length := by
    intro r hr
    rcases mara_candidates_mem (mem_ranked_iff.mp hr) with
      ⟨km, _, _, _, _, htw, hwf, _⟩
    exact ⟨htw, hwf⟩
  have hpool : title_pool env maamarim (title_clean_name maamar_name) ""
      max_results = ranked := by
    rw [title_pool, title_year_filter, if_neg (fun h => h.1 rfl),
      mara_makom_word_match_search, if_neg hname]
    rw [if_neg hqws, ← hqwsdef, ← hrankeddef, List.take_of_length_le hcap]
  rcases hr : ranked with _ | ⟨r0, rest⟩
  · rw [hr] at hc
    cases hc
  · have hr0 : r0 ∈ ranked := by rw [hr]; exact List.mem_cons_self _ _
    have hperf : title_is_perfect (r0 :: rest) = true := by
      rw [title_is_perfect]
      apply decide_eq_true
      refine ⟨by rw [(hinv r0 hr0).1]; exact hqlen, ?_⟩
      rw [title_max_words_found]
      have hcw : c.words_found ∈ (r0 :: rest).map (fun r => r.words_found) :=
        List.mem_map.mpr ⟨c, hr ▸ hc, rfl⟩
      refine le_trans ?_ (mem_le_foldl_max _ 0 _ hcw)
      rw [(hinv r0 hr0).1, ← (hinv c hc).1]
      exact hcperf
    have hfc : ∀ l : List Candidate, (∀ r ∈ l, r ∈ ranked) →
        l.filter (fun r => r0.total_words ≤ r.words_found)
          = l.filter (fun r => r.total_words ≤ r.words_found) := by
      intro l hl
      apply List.filter_congr
      intro r hrl
      have htw : r0.total_words = r.total_words := by
        rw [(hinv r0 hr0).1, (hinv r (hl r hrl)).1]
      rw [htw]
    have hresmem : ∀ r ∈ title_resort env question (r0 :: rest), r ∈ ranked := by
      intro r hrm
      rw [hr]
      exact (title_resort_perm env question (r0 :: rest)).mem_iff.mp hrm
    have hmain : title_branch env maamarim maamar_name "" question max_results
        = (if max_results ≤ 0 then
            (title_resort env question ranked).filter
              (fun r => r.total_words ≤ r.words_found)
          else
            ((title_resort env question ranked).filter
              (fun r => r.total_words ≤ r.words_found)).take
              max_results.toNat) := by
      simp only [title_branch, hpool, hr]
      rw [hperf, if_pos rfl, hfc _ hresmem]
    refine ⟨by rw [hmain, hr], ?_⟩
    intro hm
    rw [hmain, if_pos hm, hr]
    exact (title_resort_perm env question (r0 :: rest)).filter _

/-- A two-record corpus: one full overlap and one half overlap for the
query `"a b"`. -/
def corpus2 : List (String × Maamar) :=
  [("k1", testRec "a b"), ("k2", testRec "a c")]

/-- The perfect-overlap candidate of `corpus2` for the query `"a b"`. -/
def c1w : Candidate :=
  { key := "k1", name := "a b", year := "", filename := "f", text := "",
    keywords_all := [], keywords_all_normalized := [], embedding := none,
    score := 100, fuzzy_score := 100, keyword_score := 0, semantic_score := 0,
    words_found := 2, total_words := 2,
    matched_keywords := [], matched_keyword_counts := [] }

/-- Witness for `C1_perfect_rule`: on `corpus2` with the query `"a b"` and
`max_results = 0`, the title branch returns exactly the perfect-overlap
candidates. -/
theorem C1_perfect_rule_witness :
    title_branch testEnv corpus2 "a b" "" "" 0
      = (if (0 : ℤ) ≤ 0 then
          (title_resort testEnv "" (mara_makom_ranked testEnv.abbreviations
              (maraQueryWords testEnv.abbreviations (title_clean_name "a b"))
              corpus2)).filter (fun r => r.total_words ≤ r.words_found)
        else
          ((title_resort testEnv "" (mara_makom_ranked testEnv.abbreviations
              (maraQueryWords testEnv.abbreviations (title_clean_name "a b"))
              corpus2)).filter (fun r => r.total_words ≤ r.words_found)).take
            (0 : ℤ).toNat) ∧
    ((0 : ℤ) ≤ 0 →
      (title_branch testEnv corpus2 "a b" "" "" 0).Perm
        ((mara_makom_ranked testEnv.abbreviations
            (maraQueryWords testEnv.abbreviations (title_clean_name "a b"))
            corpus2).filter (fun r => r.total_words ≤ r.words_found))) :=
  C1_perfect_rule testEnv corpus2 "a b" "" 0 (by decide) (by decide)
    (by decide) c1w (by decide) (by decide)
